import Mathlib

/-!
Verification development for the Kubeflow Pipelines processor
(`elyra/pipeline/kfp/processor_kfp.py`).

The Python functions under scrutiny are shallowly embedded as executable Lean
definitions.  Strings are Lean `String`s; Python regular expression character
classes are modelled over the ASCII range (the inputs handled by the processor
are ASCII identifiers and labels); Python dictionaries whose insertion order
matters are modelled as association lists; fallible code returns `Option` or
`Except`.
-/

/- ## Section 1: workflow engine selection (`WorkflowEngineType`,
  `_compile_pipeline_dsl`, and the `set_run_name` task modifier) -/

/-- Python `str.lower()`, modelled character by character with `Char.toLower`
(which lowercases the basic latin letters; every string the processor
lowercases is an ASCII identifier). -/
def pyLower (s : String) : String := String.mk (s.data.map Char.toLower)

/-- Value of the Kubeflow Pipelines SDK v1 constant `kfp.dsl.RUN_ID_PLACEHOLDER`
(the live Argo run-id placeholder substituted by the engine at run time). -/
def RUN_ID_PLACEHOLDER : String := "\x7b\x7bworkflow.uid\x7d\x7d"

/-- The two members of the `WorkflowEngineType` enumeration (lines 83-88). -/
inductive WorkflowEngineType where
  | argo
  | tekton
deriving DecidableEq

/-- The `value` attached to each `WorkflowEngineType` member. -/
def WorkflowEngineType.value : WorkflowEngineType → String
  | .argo => "argo"
  | .tekton => "tekton"

/-- Member list of the enumeration, in declaration order, as iterated by
`WorkflowEngineType.__members__.values()`. -/
def workflowEngineMembers : List WorkflowEngineType :=
  [WorkflowEngineType.argo, WorkflowEngineType.tekton]

/-- `WorkflowEngineType.get_instance_by_value` (lines 97-106): if `value` is
non-empty, scan the members for one whose `value` equals the lowercased input;
`none` models the `KeyError` raised when no member matches (or the input is
empty, which skips the loop entirely). -/
def get_instance_by_value (value : String) : Option WorkflowEngineType :=
  if value = "" then none
  else workflowEngineMembers.find? (fun inst => inst.value == pyLower value)

/-- The two concrete compilers `_compile_pipeline_dsl` can hand the generated
DSL to. -/
inductive CompilerKind where
  | tektonCompiler
  | argoCompiler
deriving DecidableEq

/-- Compiler dispatch inside `_compile_pipeline_dsl` (lines 613-618): the DSL
is compiled with the Tekton compiler when `workflow_engine.lower()` is
`"tekton"`, and with the Argo compiler **in every other case** — there is no
branch that rejects an unrecognized engine value. -/
def compilePipelineDslCompiler (workflow_engine : String) : CompilerKind :=
  if pyLower workflow_engine = "tekton" then CompilerKind.tektonCompiler
  else CompilerKind.argoCompiler

/-- The `task_modifiers["set_run_name"]` value chosen for every generic node by
`_generate_workflow_tasks` (lines 843-850): the fixed placeholder
`"dummy value"` for the Tekton engine, the live `RUN_ID_PLACEHOLDER` otherwise. -/
def generateWorkflowTasksSetRunName (workflow_engine : String) : String :=
  if pyLower workflow_engine = "tekton" then "dummy value" else RUN_ID_PLACEHOLDER

/-- Default of the `workflow_engine` keyword parameter of
`_generate_workflow_tasks` (line 634). -/
def generateWorkflowTasksEngineDefault : String := "argo"

/-- The `set_run_name` modifier produced for generic nodes when the DSL is
generated through `_generate_pipeline_dsl`: the call to
`_generate_workflow_tasks` at lines 541-547 passes `pipeline`, `pipeline_name`,
`pipeline_instance_id`, `pipeline_version` and `experiment_name` but **not**
`workflow_engine`, so the callee always runs with its default engine value,
whatever engine `_generate_pipeline_dsl` itself was given. -/
def generatePipelineDslSetRunName (workflow_engine : String) : String :=
  generateWorkflowTasksSetRunName generateWorkflowTasksEngineDefault

/-- C1: the run-name modifier in `_generate_workflow_tasks` does depend on the
`workflow_engine` parameter as the claim states (Tekton gives the fixed
placeholder, Argo the live run-id placeholder), but generating the DSL for a
Tekton target through `_generate_pipeline_dsl` yields the **live** run-id
placeholder, not the fixed placeholder: the engine argument is dropped at the
call site (lines 541-547), so the Argo default applies. -/
theorem c1_set_run_name_engine_dropped :
    generateWorkflowTasksSetRunName "tekton" = "dummy value" ∧
    generateWorkflowTasksSetRunName "argo" = RUN_ID_PLACEHOLDER ∧
    generatePipelineDslSetRunName "tekton" = RUN_ID_PLACEHOLDER ∧
    generatePipelineDslSetRunName "tekton" ≠ "dummy value" := by
  refine ⟨by decide, by decide, by decide, by decide⟩

/-- C7: `WorkflowEngineType.get_instance_by_value` does flag `"foo"` as
unsupported (it would raise `KeyError`), but nothing on the compilation path
calls it: `_compile_pipeline_dsl` routes every engine value other than
`"tekton"` — including unknown ones — to the Argo compiler and produces
output, so compilation of an unsupported engine variant proceeds instead of
failing fast. -/
theorem c7_unknown_engine_not_rejected :
    get_instance_by_value "foo" = none ∧
    get_instance_by_value "argo" = some WorkflowEngineType.argo ∧
    get_instance_by_value "tekton" = some WorkflowEngineType.tekton ∧
    compilePipelineDslCompiler "foo" = CompilerKind.argoCompiler ∧
    (∀ workflow_engine : String,
      compilePipelineDslCompiler workflow_engine = CompilerKind.tektonCompiler ∨
      compilePipelineDslCompiler workflow_engine = CompilerKind.argoCompiler) := by
  refine ⟨by decide, by decide, by decide, by decide, ?_⟩
  intro workflow_engine
  unfold compilePipelineDslCompiler
  by_cases h : pyLower workflow_engine = "tekton"
  · exact Or.inl (by rw [if_pos h])
  · exact Or.inr (by rw [if_neg h])

/- ## Section 2: regular-expression substitution helpers

`re.sub` with a character-class pattern is modelled on `List Char`.  A pattern
`[class]` (no `+`) replaces every matching character; a pattern `[class]+`
replaces every maximal run of matching characters by one copy of the
replacement; `re.sub("-+", "-", s)` / `re.sub(" +", " ", s)` collapse runs of
one specific character. -/

/-- ASCII decimal digit (`[0-9]`, Python regex `\d` on this input space). -/
def isAsciiDigit (c : Char) : Bool := 48 ≤ c.toNat && c.toNat ≤ 57

/-- Python regex word character `\w` (`[0-9A-Za-z_]` on the ASCII range). -/
def isWordChar (c : Char) : Bool :=
  (48 ≤ c.toNat && c.toNat ≤ 57) || (65 ≤ c.toNat && c.toNat ≤ 90) ||
  (97 ≤ c.toNat && c.toNat ≤ 122) || c.toNat == 95

/-- Python whitespace as removed by `str.strip()` (space, tab, newline,
carriage return, vertical tab, form feed). -/
def isPyWhitespace (c : Char) : Bool :=
  c.toNat == 32 || c.toNat == 9 || c.toNat == 10 || c.toNat == 13 ||
  c.toNat == 11 || c.toNat == 12

/-- Drop matching characters from the end of a list. -/
def dropWhileEndP (p : Char → Bool) (l : List Char) : List Char :=
  (l.reverse.dropWhile p).reverse

/-- Python `str.strip()` on a character list. -/
def pyStrip (l : List Char) : List Char :=
  dropWhileEndP isPyWhitespace (l.dropWhile isPyWhitespace)

/-- Does `re.match(r"\d", s)` succeed, i.e. does the list start with a digit? -/
def startsWithDigit : List Char → Bool
  | [] => false
  | c :: _ => isAsciiDigit c

/-- Worker for collapsing runs of the character `d` to a single copy
(`re.sub("<d>+", "<d>", s)`); the flag records whether the previously emitted
character was `d`. -/
def collapseRunsAux (d : Char) : Bool → List Char → List Char
  | _, [] => []
  | true, c :: rest =>
    if c = d then collapseRunsAux d true rest
    else c :: collapseRunsAux d false rest
  | false, c :: rest =>
    if c = d then c :: collapseRunsAux d true rest
    else c :: collapseRunsAux d false rest

/-- `re.sub("<d>+", "<d>", s)`: collapse every run of `d` to a single `d`. -/
def collapseRuns (d : Char) (l : List Char) : List Char := collapseRunsAux d false l

/-- Worker for replacing maximal runs of `bad` characters by one copy of `d`
(`re.sub("[class]+", "<d>", s)`); the flag records whether we are inside a run
whose replacement has already been emitted. -/
def replaceRunsAux (bad : Char → Bool) (d : Char) : Bool → List Char → List Char
  | _, [] => []
  | true, c :: rest =>
    if bad c then replaceRunsAux bad d true rest
    else c :: replaceRunsAux bad d false rest
  | false, c :: rest =>
    if bad c then d :: replaceRunsAux bad d true rest
    else c :: replaceRunsAux bad d false rest

/-- `re.sub("[class]+", "<d>", s)`: replace every maximal run of characters
matching `bad` by a single `d`. -/
def replaceRuns (bad : Char → Bool) (d : Char) (l : List Char) : List Char :=
  replaceRunsAux bad d false l

theorem collapseRunsAux_replaceRunsAux (bad : Char → Bool) (d : Char) :
    ∀ (l : List Char) (inRun flag : Bool), (inRun = true → flag = true) →
    collapseRunsAux d flag (replaceRunsAux bad d inRun l) =
    collapseRunsAux d flag (l.map (fun c => if bad c then d else c)) := by
  intro l
  induction l with
  | nil => intro inRun flag _; cases inRun <;> rfl
  | cons c rest ih =>
    intro inRun flag hif
    have ihT := ih true true (fun _ => rfl)
    have ihFT := ih false true (fun h => by cases h)
    have ihFF := ih false false (fun h => by cases h)
    cases inRun with
    | true =>
      have hf : flag = true := hif rfl
      subst hf
      by_cases hb : bad c = true
      · simpa [replaceRunsAux, collapseRunsAux, hb] using ihT
      · by_cases hc : c = d
        · subst hc
          simpa [replaceRunsAux, collapseRunsAux, hb] using ihFT
        · simpa [replaceRunsAux, collapseRunsAux, hb, hc] using ihFF
    | false =>
      cases flag with
      | true =>
        by_cases hb : bad c = true
        · simpa [replaceRunsAux, collapseRunsAux, hb] using ihT
        · by_cases hc : c = d
          · subst hc
            simpa [replaceRunsAux, collapseRunsAux, hb] using ihFT
          · simpa [replaceRunsAux, collapseRunsAux, hb, hc] using ihFF
      | false =>
        by_cases hb : bad c = true
        · simpa [replaceRunsAux, collapseRunsAux, hb] using ihT
        · by_cases hc : c = d
          · subst hc
            simpa [replaceRunsAux, collapseRunsAux, hb] using ihFT
          · simpa [replaceRunsAux, collapseRunsAux, hb, hc] using ihFF

/-- Replacing maximal runs of `bad` characters by `d` and then collapsing runs
of `d` is the same as replacing every single `bad` character by `d` and then
collapsing runs of `d`. -/
theorem collapseRuns_replaceRuns (bad : Char → Bool) (d : Char) (l : List Char) :
    collapseRuns d (replaceRuns bad d l) =
    collapseRuns d (l.map (fun c => if bad c then d else c)) :=
  collapseRunsAux_replaceRunsAux bad d l false false (by simp)

/- ## Section 3: parameter-name sanitization (`_sanitize_param_name`,
  lines 1109-1130) and node-label scrubbing (line 703) -/

/-- The character class `[\W_]` used by `_sanitize_param_name` (line 1121):
a character matches if it is not a word character or if it is an underscore. -/
def paramSeparatorChar (c : Char) : Bool := !(isWordChar c) || c.toNat == 95

/-- Core of `_sanitize_param_name` on a character list: lowercase, replace
every `[\W_]` character by a space (`re.sub(r"[\W_]", " ", ...)` — a character
class without `+` substitutes per character), collapse runs of spaces
(`re.sub(" +", " ", ...)`) and strip, prepend `'n'` when the result starts
with a digit, then turn the remaining spaces into underscores. -/
def sanitizeParamChars (l : List Char) : List Char :=
  let normalized := l.map Char.toLower
  let replaced := normalized.map (fun c => if paramSeparatorChar c then ' ' else c)
  let collapsed := pyStrip (collapseRuns ' ' replaced)
  let lead := if startsWithDigit collapsed then 'n' :: collapsed else collapsed
  lead.map (fun c => if c = ' ' then '_' else c)

/-- `_sanitize_param_name` (lines 1109-1130). -/
def sanitize_param_name (name : String) : String :=
  String.mk (sanitizeParamChars name.data)

/-- The sanitization algorithm exactly as the specification words it, with the
separator class left as a parameter: lowercase; replace every **run** of
characters matching `bad` with a single space; collapse and trim spaces;
prepend a literal `n` if the result starts with a digit; then replace spaces
with `_`. -/
def specParamSanitizeWith (bad : Char → Bool) (name : String) : String :=
  let normalized := name.data.map Char.toLower
  let replaced := replaceRuns bad ' ' normalized
  let collapsed := pyStrip (collapseRuns ' ' replaced)
  let lead := if startsWithDigit collapsed then 'n' :: collapsed else collapsed
  String.mk (lead.map (fun c => if c = ' ' then '_' else c))

/-- The claim's algorithm, read literally: the characters replaced by spaces
are the **non-word** characters (`\W`), so an underscore — a word character in
regex terms — is preserved. -/
def specParamSanitizeNonWord : String → String :=
  specParamSanitizeWith (fun c => !(isWordChar c))

/-- The amended algorithm: the characters replaced by spaces are the non-word
characters **and underscores** (`[\W_]`), matching the source. -/
def specParamSanitizeNonWordOrUnderscore : String → String :=
  specParamSanitizeWith paramSeparatorChar

/-- C3 counterexample: `_sanitize_param_name` does not implement the claimed
algorithm. On `"a_ b"` the code treats the underscore as a separator and
produces `"a_b"`, while the claimed algorithm (replace runs of non-word
characters with a space) keeps the underscore and produces `"a__b"`. -/
theorem c3_sanitize_param_name_counterexample :
    sanitize_param_name "a_ b" = "a_b" ∧
    specParamSanitizeNonWord "a_ b" = "a__b" ∧
    sanitize_param_name "a_ b" ≠ specParamSanitizeNonWord "a_ b" := by
  refine ⟨by decide, by decide, by decide⟩

/-- C3 (amended): `_sanitize_param_name` implements exactly: lowercase the
input, replace every run of non-word characters **or underscores** with a
single space, collapse and trim spaces, prepend a literal `n` if the result
starts with a digit, then replace spaces with `_`; in particular
`_sanitize_param_name "My Param!" = "my_param"` and
`_sanitize_param_name "2nd_value" = "n2nd_value"`. -/
theorem c3_sanitize_param_name_amended :
    (∀ name : String,
      sanitize_param_name name = specParamSanitizeNonWordOrUnderscore name) ∧
    sanitize_param_name "My Param!" = "my_param" ∧
    sanitize_param_name "2nd_value" = "n2nd_value" := by
  refine ⟨?_, by decide, by decide⟩
  intro name
  simp only [sanitize_param_name, specParamSanitizeNonWordOrUnderscore, specParamSanitizeWith,
    sanitizeParamChars]
  rw [collapseRuns_replaceRuns paramSeparatorChar ' ' (name.data.map Char.toLower)]

/-- The character class `[^-_0-9A-Za-z ]` whose maximal runs the label scrub
at line 703 replaces with `"-"`. -/
def labelInvalidChar (c : Char) : Bool :=
  !((48 ≤ c.toNat && c.toNat ≤ 57) || (65 ≤ c.toNat && c.toNat ≤ 90) ||
    (97 ≤ c.toNat && c.toNat ≤ 122) || c.toNat == 45 || c.toNat == 95 ||
    c.toNat == 32)

/-- Node-label scrub applied to `operation.name` before uniqueness enforcement
(line 703): `re.sub("-+", "-", re.sub("[^-_0-9A-Za-z ]+", "-", name))` followed
by `.lstrip("-").rstrip("-")`. -/
def scrub_node_label (name : String) : String :=
  String.mk (dropWhileEndP (fun c => c == '-')
    ((collapseRuns '-' (replaceRuns labelInvalidChar '-' name.data)).dropWhile
      (fun c => c == '-')))

/-- The claim's algorithm, read literally: characters outside `[-_0-9A-Za-z ]`
are **removed**, then runs of `-` are collapsed and boundary `-` trimmed. -/
def specLabelStripChars (name : String) : String :=
  String.mk (dropWhileEndP (fun c => c == '-')
    ((collapseRuns '-' (name.data.filter (fun c => !(labelInvalidChar c)))).dropWhile
      (fun c => c == '-')))

/-- The amended algorithm: every character outside `[-_0-9A-Za-z ]` is
**replaced by `'-'`**, then runs of `-` are collapsed into a single `-` and
leading/trailing `-` are trimmed. -/
def specLabelReplaceChars (name : String) : String :=
  String.mk (dropWhileEndP (fun c => c == '-')
    ((collapseRuns '-' (name.data.map (fun c => if labelInvalidChar c then '-' else c))).dropWhile
      (fun c => c == '-')))

/-- C4 counterexample: the label scrub does not **strip** invalid characters;
it replaces them with `'-'`. On `"a!b"` the code produces `"a-b"`, while the
claimed algorithm (remove invalid characters) produces `"ab"`. -/
theorem c4_scrub_node_label_counterexample :
    scrub_node_label "a!b" = "a-b" ∧
    specLabelStripChars "a!b" = "ab" ∧
    scrub_node_label "a!b" ≠ specLabelStripChars "a!b" := by
  refine ⟨by decide, by decide, by decide⟩

/-- C4 (amended): the label scrub applied to every node's display name before
uniqueness enforcement **replaces** every character outside `[-_0-9A-Za-z ]`
with `'-'`, collapses runs of `'-'` into a single `'-'`, and trims leading and
trailing `'-'` characters. -/
theorem c4_scrub_node_label_amended :
    (∀ name : String, scrub_node_label name = specLabelReplaceChars name) ∧
    scrub_node_label "a!b" = "a-b" ∧
    scrub_node_label "-!a!!b. c?-" = "a-b- c" ∧
    scrub_node_label "linear pipeline" = "linear pipeline" := by
  refine ⟨?_, by decide, by decide, by decide⟩
  intro name
  unfold scrub_node_label specLabelReplaceChars
  rw [collapseRuns_replaceRuns labelInvalidChar '-' name.data]

/- ## Section 4: container command composition
  (`_compose_container_command_args`, lines 996-1107) -/

/-- `pathlib.Path(a) / b` rendered with `as_posix()`. -/
def pathJoin (a b : String) : String :=
  if a.data.getLast? = some '/' then a ++ b else a ++ "/" ++ b

/-- Python `";" in file` for the single-character separator. -/
def containsSeparator (file : String) : Bool := file.data.any (fun c => c == ';')

/-- `file_list_to_string` (lines 1080-1090): raise `ValueError` (modelled as
`Except.error`) if any filename contains the reserved separator `';'`,
otherwise join the list with `';'`. -/
def file_list_to_string (file_list : List String) : Except String String :=
  match file_list.find? containsSeparator with
  | some file =>
    Except.error ("Illegal character (;) found in filename '" ++ file ++ "'.")
  | none => Except.ok (String.intercalate ";" file_list)

/-- The download URLs resolved from the environment (with defaults) at lines
1015-1030 and 1039-1042. -/
structure CommandUrls where
  elyra_bootstrap_script_url : String
  elyra_requirements_url : String
  elyra_requirements_url_py37 : String
  python_pip_config_url : String

/-- The fields of the `crio_runtime_settings` dictionary read by
`_compose_container_command_args` (lines 1033-1035). -/
structure CrioRuntimeSettings where
  container_work_dir_root_path : String
  container_python_dir_name : String
  container_work_dir_name : String

/-- `common_curl_options` (line 1047). -/
def common_curl_options : String := "--fail -H 'Cache-Control: no-cache'"

/-- First command segment (lines 1051-1059): create and enter the work
directory, download the bootstrapper and the two requirements manifests. -/
def bootstrapDownloadSeg (urls : CommandUrls) (container_work_dir : String) : String :=
  "mkdir -p " ++ container_work_dir ++ " && cd " ++ container_work_dir ++ " && " ++
  "echo 'Downloading " ++ urls.elyra_bootstrap_script_url ++ "' && " ++
  "curl " ++ common_curl_options ++ " -L " ++ urls.elyra_bootstrap_script_url ++
  " --output bootstrapper.py && " ++
  "echo 'Downloading " ++ urls.elyra_requirements_url ++ "' && " ++
  "curl " ++ common_curl_options ++ " -L " ++ urls.elyra_requirements_url ++
  " --output requirements-elyra.txt && " ++
  "echo 'Downloading " ++ urls.elyra_requirements_url_py37 ++ "' && " ++
  "curl " ++ common_curl_options ++ " -L " ++ urls.elyra_requirements_url_py37 ++
  " --output requirements-elyra-py37.txt && "

/-- CRI-O-only segment (lines 1061-1066): download the pip configuration into
the user library directory. -/
def crioPipConfSeg (urls : CommandUrls) (container_python_dir_name : String) : String :=
  "mkdir " ++ container_python_dir_name ++ " && cd " ++ container_python_dir_name ++ " && " ++
  "echo 'Downloading " ++ urls.python_pip_config_url ++ "' && " ++
  "curl " ++ common_curl_options ++ " -L " ++ urls.python_pip_config_url ++
  " --output pip.conf && cd .. && "

/-- Bootstrapper invocation segment (lines 1068-1078) with the positional
flags up to `--file`. -/
def bootstrapInvokeSeg (python_user_lib_path_target pipeline_name cos_endpoint cos_bucket
    cos_directory cos_dependencies_archive filename : String) : String :=
  "python3 -m pip install " ++ python_user_lib_path_target ++ " packaging && " ++
  "python3 -m pip freeze > requirements-current.txt && " ++
  "python3 bootstrapper.py " ++
  "--pipeline-name '" ++ pipeline_name ++ "' " ++
  "--cos-endpoint '" ++ cos_endpoint ++ "' " ++
  "--cos-bucket '" ++ cos_bucket ++ "' " ++
  "--cos-directory '" ++ cos_directory ++ "' " ++
  "--cos-dependencies-archive '" ++ cos_dependencies_archive ++ "' " ++
  "--file '" ++ filename ++ "' "

/-- Work directory: `Path(root) / name` under CRI-O, `Path(".") /
"jupyter-work-dir"` (which `as_posix()` renders without the leading `./`)
otherwise (lines 1033-1044). -/
def composeContainerWorkDir : Option CrioRuntimeSettings → String
  | some crio => pathJoin crio.container_work_dir_root_path crio.container_work_dir_name
  | none => "jupyter-work-dir"

/-- `python_user_lib_path` for the CRI-O branch (line 1037). -/
def crioUserLibPath (crio : CrioRuntimeSettings) : String :=
  pathJoin (composeContainerWorkDir (some crio)) crio.container_python_dir_name

/-- `python_user_lib_path_target` (lines 1038 and 1045). -/
def composeUserLibPathTarget : Option CrioRuntimeSettings → String
  | some crio => "--target=" ++ crioUserLibPath crio
  | none => ""

/-- The `--inputs` portion of the command-argument list (lines 1092-1096):
appended only when `cos_inputs` is non-empty, and raising whenever the list
contains an illegal filename. -/
def inputsFlagSegs (cos_inputs : List String) : Except String (List String) :=
  if cos_inputs.length > 0 then
    match file_list_to_string cos_inputs with
    | Except.error e => Except.error e
    | Except.ok inputs_str => Except.ok ["--inputs '" ++ inputs_str ++ "' "]
  else Except.ok []

/-- The `--outputs` portion of the command-argument list (lines 1098-1102). -/
def outputsFlagSegs (cos_outputs : List String) : Except String (List String) :=
  if cos_outputs.length > 0 then
    match file_list_to_string cos_outputs with
    | Except.error e => Except.error e
    | Except.ok outputs_str => Except.ok ["--outputs '" ++ outputs_str ++ "' "]
  else Except.ok []

/-- `_compose_container_command_args` (lines 996-1107), returning the
`command_args` list that the source builds before `"".join`. A raised
`ValueError` from `file_list_to_string` is an `Except.error`, and aborts the
composition without returning any (partial) command. -/
def compose_container_command_args (pipeline_name cos_endpoint cos_bucket cos_directory
    cos_dependencies_archive filename : String) (cos_inputs cos_outputs : List String)
    (urls : CommandUrls) (crio_runtime_settings : Option CrioRuntimeSettings) :
    Except String (List String) :=
  let base : List String :=
    [bootstrapDownloadSeg urls (composeContainerWorkDir crio_runtime_settings)] ++
    (match crio_runtime_settings with
     | some crio => [crioPipConfSeg urls crio.container_python_dir_name]
     | none => []) ++
    [bootstrapInvokeSeg (composeUserLibPathTarget crio_runtime_settings) pipeline_name
      cos_endpoint cos_bucket cos_directory cos_dependencies_archive filename]
  match inputsFlagSegs cos_inputs with
  | Except.error e => Except.error e
  | Except.ok ins =>
    match outputsFlagSegs cos_outputs with
    | Except.error e => Except.error e
    | Except.ok outs =>
      Except.ok (base ++ ins ++ outs ++
        (match crio_runtime_settings with
         | some crio => ["--user-volume-path '" ++ crioUserLibPath crio ++ "' "]
         | none => []))

/-- The final `"".join(command_args)` (line 1107). -/
def compose_container_command (pipeline_name cos_endpoint cos_bucket cos_directory
    cos_dependencies_archive filename : String) (cos_inputs cos_outputs : List String)
    (urls : CommandUrls) (crio_runtime_settings : Option CrioRuntimeSettings) :
    Except String String :=
  (compose_container_command_args pipeline_name cos_endpoint cos_bucket cos_directory
    cos_dependencies_archive filename cos_inputs cos_outputs urls
    crio_runtime_settings).map String.join

/-- Does the character list start with the given pattern? -/
def listStarts : List Char → List Char → Bool
  | [], _ => true
  | _ :: _, [] => false
  | p :: ps, c :: cs => p == c && listStarts ps cs

/-- Does the string `s` start with the pattern `pat`? Used to state that a
command-line flag is absent from a command segment. -/
def strStarts (s pat : String) : Bool := listStarts pat.data s.data

theorem listStarts_append_left (pat : List Char) :
    ∀ (l1 l2 : List Char), pat.length ≤ l1.length →
    listStarts pat (l1 ++ l2) = listStarts pat l1 := by
  induction pat with
  | nil => intro l1 l2 _; simp [listStarts]
  | cons p ps ih =>
    intro l1 l2 h
    cases l1 with
    | nil => simp at h
    | cons c cs =>
      simp only [List.cons_append, listStarts]
      congr 1
      exact ih cs l2 (by simpa using h)

theorem listStarts_head_ne {p c : Char} (ps cs : List Char) (h : (p == c) = false) :
    listStarts (p :: ps) (c :: cs) = false := by
  simp [listStarts, h]

theorem listStarts_lit_false (pat lit l2 : List Char) (hlen : pat.length ≤ lit.length)
    (hfalse : listStarts pat lit = false) : listStarts pat (lit ++ l2) = false := by
  rw [listStarts_append_left pat lit l2 hlen]
  exact hfalse

theorem strStarts_bootstrapDownloadSeg (urls : CommandUrls) (w : String) (pat : String)
    (hlen : pat.data.length ≤ ("mkdir -p " : String).data.length)
    (hfalse : listStarts pat.data ("mkdir -p " : String).data = false) :
    strStarts (bootstrapDownloadSeg urls w) pat = false := by
  unfold strStarts bootstrapDownloadSeg
  simp only [String.data_append, List.append_assoc]
  exact listStarts_lit_false _ _ _ hlen hfalse

theorem strStarts_crioPipConfSeg (urls : CommandUrls) (d : String) (ps : List Char) :
    strStarts (crioPipConfSeg urls d) (String.mk ('-' :: ps)) = false := by
  unfold strStarts crioPipConfSeg
  simp only [String.data_append, List.append_assoc]
  exact listStarts_head_ne _ _ rfl

theorem strStarts_bootstrapInvokeSeg (t a b c d e f : String) (pat : String)
    (hlen : pat.data.length ≤ ("python3 -m pip install " : String).data.length)
    (hfalse : listStarts pat.data ("python3 -m pip install " : String).data = false) :
    strStarts (bootstrapInvokeSeg t a b c d e f) pat = false := by
  unfold strStarts bootstrapInvokeSeg
  simp only [String.data_append, List.append_assoc]
  exact listStarts_lit_false _ _ _ hlen hfalse

theorem strStarts_userVolumeSeg (p : String) (pat : String)
    (hlen : pat.data.length ≤ ("--user-volume-path '" : String).data.length)
    (hfalse : listStarts pat.data ("--user-volume-path '" : String).data = false) :
    strStarts ("--user-volume-path '" ++ p ++ "' ") pat = false := by
  unfold strStarts
  simp only [String.data_append, List.append_assoc]
  exact listStarts_lit_false _ _ _ hlen hfalse

theorem strStarts_outputsSeg (s : String) (pat : String)
    (hlen : pat.data.length ≤ ("--outputs '" : String).data.length)
    (hfalse : listStarts pat.data ("--outputs '" : String).data = false) :
    strStarts ("--outputs '" ++ s ++ "' ") pat = false := by
  unfold strStarts
  simp only [String.data_append, List.append_assoc]
  exact listStarts_lit_false _ _ _ hlen hfalse

theorem strStarts_inputsSeg (s : String) (pat : String)
    (hlen : pat.data.length ≤ ("--inputs '" : String).data.length)
    (hfalse : listStarts pat.data ("--inputs '" : String).data = false) :
    strStarts ("--inputs '" ++ s ++ "' ") pat = false := by
  unfold strStarts
  simp only [String.data_append, List.append_assoc]
  exact listStarts_lit_false _ _ _ hlen hfalse

theorem file_list_to_string_error_of_sep (l : List String)
    (h : ∃ file ∈ l, containsSeparator file = true) :
    ∃ e, file_list_to_string l = Except.error e := by
  unfold file_list_to_string
  have hsome : (l.find? containsSeparator).isSome := List.find?_isSome.2 h
  rcases hfind : l.find? containsSeparator with _ | g
  · rw [hfind] at hsome
    simp at hsome
  · exact ⟨"Illegal character (;) found in filename '" ++ g ++ "'.", rfl⟩

theorem file_list_to_string_ok (l : List String)
    (h : ∀ file ∈ l, containsSeparator file = false) :
    file_list_to_string l = Except.ok (String.intercalate ";" l) := by
  unfold file_list_to_string
  rw [List.find?_eq_none.2 (fun x hx => by simp [h x hx])]

theorem inputsFlagSegs_error_of_sep (l : List String)
    (h : ∃ file ∈ l, containsSeparator file = true) :
    ∃ e, inputsFlagSegs l = Except.error e := by
  obtain ⟨e, he⟩ := file_list_to_string_error_of_sep l h
  refine ⟨e, ?_⟩
  have hlen : l.length > 0 := by
    obtain ⟨f, hf, _⟩ := h
    cases l with
    | nil => cases hf
    | cons a as => simp
  unfold inputsFlagSegs
  rw [if_pos hlen, he]

theorem outputsFlagSegs_error_of_sep (l : List String)
    (h : ∃ file ∈ l, containsSeparator file = true) :
    ∃ e, outputsFlagSegs l = Except.error e := by
  obtain ⟨e, he⟩ := file_list_to_string_error_of_sep l h
  refine ⟨e, ?_⟩
  have hlen : l.length > 0 := by
    obtain ⟨f, hf, _⟩ := h
    cases l with
    | nil => cases hf
    | cons a as => simp
  unfold outputsFlagSegs
  rw [if_pos hlen, he]

theorem inputsFlagSegs_ok_shape (l : List String) (ins : List String)
    (h : inputsFlagSegs l = Except.ok ins) :
    ins = [] ∨ ∃ s, ins = ["--inputs '" ++ s ++ "' "] := by
  unfold inputsFlagSegs at h
  by_cases hl : l.length > 0
  · rw [if_pos hl] at h
    rcases hf : file_list_to_string l with e | s
    · rw [hf] at h
      cases h
    · rw [hf] at h
      cases h
      exact Or.inr ⟨s, rfl⟩
  · rw [if_neg hl] at h
    cases h
    exact Or.inl rfl

theorem outputsFlagSegs_ok_shape (l : List String) (outs : List String)
    (h : outputsFlagSegs l = Except.ok outs) :
    outs = [] ∨ ∃ s, outs = ["--outputs '" ++ s ++ "' "] := by
  unfold outputsFlagSegs at h
  by_cases hl : l.length > 0
  · rw [if_pos hl] at h
    rcases hf : file_list_to_string l with e | s
    · rw [hf] at h
      cases h
    · rw [hf] at h
      cases h
      exact Or.inr ⟨s, rfl⟩
  · rw [if_neg hl] at h
    cases h
    exact Or.inl rfl

theorem inputsFlagSegs_ok_of_nonempty (l : List String) (hne : l ≠ [])
    (h : ∀ file ∈ l, containsSeparator file = false) :
    inputsFlagSegs l = Except.ok ["--inputs '" ++ String.intercalate ";" l ++ "' "] := by
  unfold inputsFlagSegs
  rw [if_pos (List.length_pos.2 hne), file_list_to_string_ok l h]

theorem outputsFlagSegs_ok_of_no_sep (l : List String)
    (h : ∀ file ∈ l, containsSeparator file = false) :
    ∃ outs, outputsFlagSegs l = Except.ok outs := by
  by_cases hl : l.length > 0
  · exact ⟨_, by unfold outputsFlagSegs; rw [if_pos hl, file_list_to_string_ok l h]⟩
  · exact ⟨[], by unfold outputsFlagSegs; rw [if_neg hl]⟩

/-- C5: composing the container command raises a fatal error (and returns no
command segments at all) whenever any input or output filename contains the
reserved separator `';'`; an empty input (resp. output) list omits the
`--inputs` (resp. `--outputs`) flag from the command entirely; and a non-empty
separator-free input list does produce the `--inputs` flag segment. -/
theorem c5_compose_container_command_args_spec
    (pipeline_name cos_endpoint cos_bucket cos_directory cos_dependencies_archive
      filename : String) (cos_inputs cos_outputs : List String) (urls : CommandUrls)
    (crio_runtime_settings : Option CrioRuntimeSettings) :
    ((∃ file ∈ cos_inputs ++ cos_outputs, containsSeparator file = true) →
      ∃ msg, compose_container_command_args pipeline_name cos_endpoint cos_bucket
        cos_directory cos_dependencies_archive filename cos_inputs cos_outputs urls
        crio_runtime_settings = Except.error msg) ∧
    (cos_inputs = [] → ∀ segs, compose_container_command_args pipeline_name cos_endpoint
        cos_bucket cos_directory cos_dependencies_archive filename cos_inputs cos_outputs
        urls crio_runtime_settings = Except.ok segs →
      ∀ seg ∈ segs, strStarts seg "--inputs" = false) ∧
    (cos_outputs = [] → ∀ segs, compose_container_command_args pipeline_name cos_endpoint
        cos_bucket cos_directory cos_dependencies_archive filename cos_inputs cos_outputs
        urls crio_runtime_settings = Except.ok segs →
      ∀ seg ∈ segs, strStarts seg "--outputs" = false) ∧
    ((∀ file ∈ cos_inputs ++ cos_outputs, containsSeparator file = false) →
      cos_inputs ≠ [] →
      ∃ segs, compose_container_command_args pipeline_name cos_endpoint cos_bucket
          cos_directory cos_dependencies_archive filename cos_inputs cos_outputs urls
          crio_runtime_settings = Except.ok segs ∧
        ("--inputs '" ++ String.intercalate ";" cos_inputs ++ "' ") ∈ segs) := by
  refine ⟨?_, ?_, ?_, ?_⟩
  · rintro ⟨file, hfile, hsep⟩
    rcases List.mem_append.1 hfile with hin | hout
    · obtain ⟨e, he⟩ := inputsFlagSegs_error_of_sep cos_inputs ⟨file, hin, hsep⟩
      exact ⟨e, by simp [compose_container_command_args, he]⟩
    · rcases hi : inputsFlagSegs cos_inputs with e | ins
      · exact ⟨e, by simp [compose_container_command_args, hi]⟩
      · obtain ⟨e, he⟩ := outputsFlagSegs_error_of_sep cos_outputs ⟨file, hout, hsep⟩
        exact ⟨e, by simp [compose_container_command_args, hi, he]⟩
  · intro hnil segs hok seg hseg
    subst hnil
    rcases ho : outputsFlagSegs cos_outputs with e | outs
    · simp [compose_container_command_args, inputsFlagSegs, ho] at hok
    · have hshape := outputsFlagSegs_ok_shape cos_outputs outs ho
      simp [compose_container_command_args, inputsFlagSegs, ho] at hok
      subst hok
      cases crio_runtime_settings with
      | none =>
        simp at hseg
        rcases hshape with h0 | ⟨s, hs⟩
        · subst h0
          simp at hseg
          rcases hseg with rfl | rfl
          · exact strStarts_bootstrapDownloadSeg urls _ _ (by decide) (by decide)
          · exact strStarts_bootstrapInvokeSeg _ _ _ _ _ _ _ _ (by decide) (by decide)
        · subst hs
          simp at hseg
          rcases hseg with rfl | rfl | rfl
          · exact strStarts_bootstrapDownloadSeg urls _ _ (by decide) (by decide)
          · exact strStarts_bootstrapInvokeSeg _ _ _ _ _ _ _ _ (by decide) (by decide)
          · exact strStarts_outputsSeg _ _ (by decide) (by decide)
      | some crio =>
        simp at hseg
        rcases hshape with h0 | ⟨s, hs⟩
        · subst h0
          simp at hseg
          rcases hseg with rfl | rfl | rfl | rfl
          · exact strStarts_bootstrapDownloadSeg urls _ _ (by decide) (by decide)
          · exact strStarts_crioPipConfSeg urls _ _
          · exact strStarts_bootstrapInvokeSeg _ _ _ _ _ _ _ _ (by decide) (by decide)
          · exact strStarts_userVolumeSeg _ _ (by decide) (by decide)
        · subst hs
          simp at hseg
          rcases hseg with rfl | rfl | rfl | rfl | rfl
          · exact strStarts_bootstrapDownloadSeg urls _ _ (by decide) (by decide)
          · exact strStarts_crioPipConfSeg urls _ _
          · exact strStarts_bootstrapInvokeSeg _ _ _ _ _ _ _ _ (by decide) (by decide)
          · exact strStarts_outputsSeg _ _ (by decide) (by decide)
          · exact strStarts_userVolumeSeg _ _ (by decide) (by decide)
  · intro hnil segs hok seg hseg
    subst hnil
    rcases hi : inputsFlagSegs cos_inputs with e | ins
    · simp [compose_container_command_args, hi] at hok
    · have hshape := inputsFlagSegs_ok_shape cos_inputs ins hi
      simp [compose_container_command_args, outputsFlagSegs, hi] at hok
      subst hok
      cases crio_runtime_settings with
      | none =>
        simp at hseg
        rcases hshape with h0 | ⟨s, hs⟩
        · subst h0
          simp at hseg
          rcases hseg with rfl | rfl
          · exact strStarts_bootstrapDownloadSeg urls _ _ (by decide) (by decide)
          · exact strStarts_bootstrapInvokeSeg _ _ _ _ _ _ _ _ (by decide) (by decide)
        · subst hs
          simp at hseg
          rcases hseg with rfl | rfl | rfl
          · exact strStarts_bootstrapDownloadSeg urls _ _ (by decide) (by decide)
          · exact strStarts_bootstrapInvokeSeg _ _ _ _ _ _ _ _ (by decide) (by decide)
          · exact strStarts_inputsSeg _ _ (by decide) (by decide)
      | some crio =>
        simp at hseg
        rcases hshape with h0 | ⟨s, hs⟩
        · subst h0
          simp at hseg
          rcases hseg with rfl | rfl | rfl | rfl
          · exact strStarts_bootstrapDownloadSeg urls _ _ (by decide) (by decide)
          · exact strStarts_crioPipConfSeg urls _ _
          · exact strStarts_bootstrapInvokeSeg _ _ _ _ _ _ _ _ (by decide) (by decide)
          · exact strStarts_userVolumeSeg _ _ (by decide) (by decide)
        · subst hs
          simp at hseg
          rcases hseg with rfl | rfl | rfl | rfl | rfl
          · exact strStarts_bootstrapDownloadSeg urls _ _ (by decide) (by decide)
          · exact strStarts_crioPipConfSeg urls _ _
          · exact strStarts_bootstrapInvokeSeg _ _ _ _ _ _ _ _ (by decide) (by decide)
          · exact strStarts_inputsSeg _ _ (by decide) (by decide)
          · exact strStarts_userVolumeSeg _ _ (by decide) (by decide)
  · intro hnosep hne
    have hin := inputsFlagSegs_ok_of_nonempty cos_inputs hne
      (fun f hf => hnosep f (List.mem_append_left _ hf))
    obtain ⟨outs, ho⟩ := outputsFlagSegs_ok_of_no_sep cos_outputs
      (fun f hf => hnosep f (List.mem_append_right _ hf))
    cases crio_runtime_settings with
    | none =>
      rcases hcomp : compose_container_command_args pipeline_name cos_endpoint cos_bucket
          cos_directory cos_dependencies_archive filename cos_inputs cos_outputs urls
          none with e | segs
      · simp [compose_container_command_args, hin, ho] at hcomp
      · refine ⟨segs, rfl, ?_⟩
        simp [compose_container_command_args, hin, ho] at hcomp
        subst hcomp
        simp
    | some crio =>
      rcases hcomp : compose_container_command_args pipeline_name cos_endpoint cos_bucket
          cos_directory cos_dependencies_archive filename cos_inputs cos_outputs urls
          (some crio) with e | segs
      · simp [compose_container_command_args, hin, ho] at hcomp
      · refine ⟨segs, rfl, ?_⟩
        simp [compose_container_command_args, hin, ho] at hcomp
        subst hcomp
        simp

/-- Witness for C5 at concrete inputs: an input filename containing `';'`
makes composition fail; with an empty input list no segment carries the
`--inputs` flag; with a separator-free non-empty input list the `--inputs`
segment is present. -/
theorem c5_compose_container_command_args_spec_witness :
    (∃ msg, compose_container_command_args "p" "http://minio:9000" "bucket" "dir"
      "arch.tar.gz" "nb.ipynb" ["bad;name.txt"] ["out.csv"] ⟨"u1", "u2", "u3", "u4"⟩
      none = Except.error msg) ∧
    (∀ segs, compose_container_command_args "p" "http://minio:9000" "bucket" "dir"
        "arch.tar.gz" "nb.ipynb" [] ["out.csv"] ⟨"u1", "u2", "u3", "u4"⟩ none =
        Except.ok segs → ∀ seg ∈ segs, strStarts seg "--inputs" = false) ∧
    (∀ segs, compose_container_command_args "p" "http://minio:9000" "bucket" "dir"
        "arch.tar.gz" "nb.ipynb" ["in.txt"] [] ⟨"u1", "u2", "u3", "u4"⟩ none =
        Except.ok segs → ∀ seg ∈ segs, strStarts seg "--outputs" = false) ∧
    (∃ segs, compose_container_command_args "p" "http://minio:9000" "bucket" "dir"
        "arch.tar.gz" "nb.ipynb" ["in.txt", "in2.txt"] ["out.csv"]
        ⟨"u1", "u2", "u3", "u4"⟩ none = Except.ok segs ∧
      ("--inputs '" ++ String.intercalate ";" ["in.txt", "in2.txt"] ++ "' ") ∈ segs) :=
  ⟨(c5_compose_container_command_args_spec "p" "http://minio:9000" "bucket" "dir"
      "arch.tar.gz" "nb.ipynb" ["bad;name.txt"] ["out.csv"] ⟨"u1", "u2", "u3", "u4"⟩
      none).1 (by decide),
   (c5_compose_container_command_args_spec "p" "http://minio:9000" "bucket" "dir"
      "arch.tar.gz" "nb.ipynb" [] ["out.csv"] ⟨"u1", "u2", "u3", "u4"⟩ none).2.1 rfl,
   (c5_compose_container_command_args_spec "p" "http://minio:9000" "bucket" "dir"
      "arch.tar.gz" "nb.ipynb" ["in.txt"] [] ⟨"u1", "u2", "u3", "u4"⟩ none).2.2.1 rfl,
   (c5_compose_container_command_args_spec "p" "http://minio:9000" "bucket" "dir"
      "arch.tar.gz" "nb.ipynb" ["in.txt", "in2.txt"] ["out.csv"] ⟨"u1", "u2", "u3", "u4"⟩
      none).2.2.2 (by decide) (by decide)⟩

/- ## Section 5: unique task names (`_generate_workflow_tasks`, lines 705-714) -/

theorem toNat_charOfNat {n : Nat} (h : n.isValidChar) : (Char.ofNat n).toNat = n := by
  simp [Char.ofNat, h, Char.ofNatAux, Char.toNat]
  rfl

/-- Decimal digit character (`'0'` + d). -/
def decDigitChar (d : Nat) : Char := Char.ofNat (48 + d)

/-- Digits of `n` in base ten, most significant first. -/
def decimalDigits (n : Nat) : List Char :=
  if _ : n < 10 then [decDigitChar n]
  else decimalDigits (n / 10) ++ [decDigitChar (n % 10)]
decreasing_by exact Nat.div_lt_self (by omega) (by omega)

/-- Decimal rendering of a natural number, as Python's `str(int)` used in the
f-string `f"{operation.name}_{unique_names[operation.name]}"` (line 711). -/
def decimalRepr (n : Nat) : String := String.mk (decimalDigits n)

/-- Base-ten value of a digit list, inverse of `decimalDigits`. -/
def decimalVal (l : List Char) : Nat := l.foldl (fun a c => 10 * a + (c.toNat - 48)) 0

theorem toNat_decDigitChar {d : Nat} (h : d < 10) : (decDigitChar d).toNat = 48 + d :=
  toNat_charOfNat (Or.inl (by omega))

theorem decimalVal_append (l : List Char) (c : Char) :
    decimalVal (l ++ [c]) = 10 * decimalVal l + (c.toNat - 48) := by
  unfold decimalVal
  rw [List.foldl_append]
  rfl

theorem decimalVal_decimalDigits (n : Nat) : decimalVal (decimalDigits n) = n := by
  induction n using Nat.strong_induction_on with
  | _ n ih =>
    by_cases h : n < 10
    · rw [decimalDigits, dif_pos h]
      have hd := toNat_decDigitChar h
      simp [decimalVal, hd]
    · rw [decimalDigits, dif_neg h]
      rw [decimalVal_append, ih (n / 10) (Nat.div_lt_self (by omega) (by omega))]
      have hd := toNat_decDigitChar (Nat.mod_lt n (by omega) : n % 10 < 10)
      omega

theorem decimalRepr_inj {a b : Nat} (h : decimalRepr a = decimalRepr b) : a = b := by
  have hdata : decimalDigits a = decimalDigits b := congrArg String.data h
  have := congrArg decimalVal hdata
  rwa [decimalVal_decimalDigits, decimalVal_decimalDigits] at this

theorem string_append_left_cancel {s u v : String} (h : s ++ u = s ++ v) : u = v := by
  have hd : s.data ++ u.data = s.data ++ v.data := by
    have := congrArg String.data h
    simpa using this
  have := List.append_cancel_left hd
  cases u
  cases v
  exact congrArg String.mk this

theorem counter_suffix_ne (x : String) {a b : Nat} (h : a ≠ b) :
    x ++ "_" ++ decimalRepr a ≠ x ++ "_" ++ decimalRepr b := by
  intro he
  exact h (decimalRepr_inj (string_append_left_cancel he))

theorem base_ne_counter_suffix (x : String) (a : Nat) :
    x ≠ x ++ "_" ++ decimalRepr a := by
  intro he
  have := congrArg String.length he
  rw [String.length_append, String.length_append] at this
  have h1 : ("_" : String).length = 1 := rfl
  omega

/-- Membership test `name in d` on the association-list model of a Python
dictionary. -/
def alMem {α : Type} (m : List (String × α)) (k : String) : Bool :=
  m.any (fun e => e.1 == k)

/-- Lookup `unique_names[name]`. -/
def alGet (m : List (String × Nat)) (k : String) : Nat :=
  ((m.find? (fun e => e.1 == k)).map Prod.snd).getD 0

/-- Assignment `d[k] = v`: overwrite the existing entry, otherwise append
(Python dictionaries keep insertion order). -/
def alSet {α : Type} : List (String × α) → String → α → List (String × α)
  | [], k, v => [(k, v)]
  | e :: rest, k, v => if e.1 = k then (k, v) :: rest else e :: alSet rest k v

/-- The `while new_name in unique_names` loop of lines 710-712: as long as the
candidate collides, rename it to `f"{name}_{unique_names[name]}"` and bump the
counter stored under the original name. The fuel argument bounds the number of
iterations; `m.length + 1` iterations always suffice because the successive
candidates are pairwise distinct and the key set never grows inside the
loop. -/
def uniqueNameLoop (base : String) : Nat → List (String × Nat) → String →
    String × List (String × Nat)
  | 0, m, cand => (cand, m)
  | fuel + 1, m, cand =>
    if alMem m cand then
      uniqueNameLoop base fuel (alSet m base (alGet m base + 1))
        (base ++ "_" ++ decimalRepr (alGet m base))
    else (cand, m)

/-- One iteration of the `for operation in sorted_operations` body (lines
707-714): run the while loop on `operation.name`, store the final name, and
record it with counter 1 in `unique_names`. -/
def assign_unique_name (m : List (String × Nat)) (name : String) :
    String × List (String × Nat) :=
  let r := uniqueNameLoop name (m.length + 1) m name
  (r.1, alSet r.2 r.1 1)

/-- The uniqueness-enforcement pass over the scrubbed operation names in
processing order (lines 705-714), starting from the empty `unique_names`
dictionary. -/
def uniquifyNamesAux : List String → List (String × Nat) → List String
  | [], _ => []
  | name :: rest, m =>
    let r := assign_unique_name m name
    r.1 :: uniquifyNamesAux rest r.2

/-- Names assigned to the operations, in processing order. -/
def uniquifyNames (names : List String) : List String := uniquifyNamesAux names []

/-- The `unique_names` dictionary after processing `c + 1` operations that all
carry the same label `x`: the original key `x` holds the next counter `c + 1`,
followed by the already-assigned suffixed names in insertion order. -/
def uniqueNamesState (x : String) (c : Nat) : List (String × Nat) :=
  (x, c + 1) :: (List.range c).map (fun i => (x ++ "_" ++ decimalRepr (i + 1), 1))

theorem alSet_of_not_mem {α : Type} (m : List (String × α)) (k : String) (v : α)
    (h : alMem m k = false) : alSet m k v = m ++ [(k, v)] := by
  induction m with
  | nil => rfl
  | cons e rest ih =>
    simp only [alMem, List.any_cons, Bool.or_eq_false_iff] at h
    obtain ⟨h1, h2⟩ := h
    have hne : e.1 ≠ k := by simpa using h1
    simp only [alSet, if_neg hne, List.cons_append]
    rw [ih h2]

theorem alMem_state_self (x : String) (c : Nat) :
    alMem (uniqueNamesState x c) x = true := by
  simp [alMem, uniqueNamesState]

theorem alGet_state_self (x : String) (c : Nat) :
    alGet (uniqueNamesState x c) x = c + 1 := by
  simp [alGet, uniqueNamesState, List.find?]

theorem alSet_state_self (x : String) (c v : Nat) :
    alSet (uniqueNamesState x c) x v =
      (x, v) :: (List.range c).map (fun i => (x ++ "_" ++ decimalRepr (i + 1), 1)) := by
  simp [alSet, uniqueNamesState]

theorem alMem_state_updated (x : String) (c : Nat) :
    alMem ((x, c + 2) :: (List.range c).map (fun i => (x ++ "_" ++ decimalRepr (i + 1), 1)))
      (x ++ "_" ++ decimalRepr (c + 1)) = false := by
  simp only [alMem, List.any_cons, List.any_map, Bool.or_eq_false_iff]
  constructor
  · exact beq_eq_false_iff_ne.2 (base_ne_counter_suffix x (c + 1))
  · rw [List.any_eq_false]
    rintro e he
    obtain ⟨i, hi, rfl⟩ := List.mem_map.1 he
    have hic : i < c := List.mem_range.1 hi
    simp only [beq_iff_eq]
    exact counter_suffix_ne x (by omega : i + 1 ≠ c + 1)

theorem uniqueNameLoop_state (x : String) (c : Nat) :
    uniqueNameLoop x (c + 2) (uniqueNamesState x c) x =
      (x ++ "_" ++ decimalRepr (c + 1),
       (x, c + 2) :: (List.range c).map (fun i => (x ++ "_" ++ decimalRepr (i + 1), 1))) := by
  rw [show c + 2 = (c + 1) + 1 from rfl, uniqueNameLoop]
  rw [alMem_state_self, if_pos rfl, alGet_state_self, alSet_state_self]
  rw [uniqueNameLoop]
  rw [alMem_state_updated]
  simp

theorem assign_unique_name_state (x : String) (c : Nat) :
    assign_unique_name (uniqueNamesState x c) x =
      (x ++ "_" ++ decimalRepr (c + 1), uniqueNamesState x (c + 1)) := by
  unfold assign_unique_name
  have hlen : (uniqueNamesState x c).length + 1 = c + 2 := by simp [uniqueNamesState]
  rw [hlen, uniqueNameLoop_state]
  simp only []
  congr 1
  rw [alSet_of_not_mem _ _ _ (alMem_state_updated x c)]
  unfold uniqueNamesState
  rw [List.range_succ, List.map_append]
  simp

theorem uniquifyNamesAux_replicate (x : String) :
    ∀ (r c : Nat), uniquifyNamesAux (List.replicate r x) (uniqueNamesState x c) =
      (List.range r).map (fun i => x ++ "_" ++ decimalRepr (c + 1 + i)) := by
  intro r
  induction r with
  | zero => intro c; simp [uniquifyNamesAux]
  | succ r ih =>
    intro c
    rw [List.replicate_succ]
    simp only [uniquifyNamesAux]
    rw [assign_unique_name_state, ih (c + 1)]
    rw [List.range_succ_eq_map]
    simp only [List.map_cons, List.map_map, Nat.add_zero]
    congr 1
    apply List.map_congr_left
    intro i _
    simp only [Function.comp]
    congr 2
    omega

/-- C2: for every pipeline in which `n + 1` nodes share the same
already-scrubbed label `x`, the uniqueness-enforcement pass assigns, in
processing order, the names `x, x_1, x_2, ..., x_n`: the first occurrence is
unsuffixed and the k-th later occurrence receives the suffix `_k`; the
assigned names are pairwise distinct, and the whole pass is a pure function
of the input order. -/
theorem c2_unique_names_shared_label (x : String) (n : Nat) :
    uniquifyNames (List.replicate (n + 1) x) =
      x :: (List.range n).map (fun i => x ++ "_" ++ decimalRepr (i + 1)) ∧
    (uniquifyNames (List.replicate (n + 1) x)).Nodup := by
  have h0 : assign_unique_name [] x = (x, uniqueNamesState x 0) := rfl
  have h1 : uniquifyNames (List.replicate (n + 1) x) =
      x :: (List.range n).map (fun i => x ++ "_" ++ decimalRepr (i + 1)) := by
    unfold uniquifyNames
    rw [List.replicate_succ]
    simp only [uniquifyNamesAux]
    rw [h0, uniquifyNamesAux_replicate x n 0]
    congr 1
    apply List.map_congr_left
    intro i _
    congr 2
    omega
  refine ⟨h1, ?_⟩
  rw [h1]
  rw [List.nodup_cons]
  constructor
  · intro hmem
    obtain ⟨i, _, hEq⟩ := List.mem_map.1 hmem
    exact base_ne_counter_suffix x (i + 1) hEq.symm
  · refine List.Nodup.map ?_ (List.nodup_range n)
    intro a b hab
    have := decimalRepr_inj (string_append_left_cancel hab)
    omega

/- ## Section 6: Kubernetes toleration handler
  (`add_kubernetes_toleration`, lines 1176-1188)

`hashlib.sha256(...).hexdigest()` is modelled by an executable SHA-256 over
the UTF-8 bytes of the content string (FIPS 180-4); 32-bit machine words are
natural numbers reduced modulo `2 ^ 32`. -/

/-- Truncate to a 32-bit word. -/
def w32 (n : Nat) : Nat := n % 4294967296

/-- Rotate a 32-bit word right by `r` bits. -/
def rotr32 (r x : Nat) : Nat := w32 ((x >>> r) ||| (x <<< (32 - r)))

/-- Bitwise complement of a 32-bit word. -/
def not32 (x : Nat) : Nat := 4294967295 - w32 x

def sha256Ch (e f g : Nat) : Nat := (e &&& f) ^^^ (not32 e &&& g)

def sha256Maj (a b c : Nat) : Nat := (a &&& b) ^^^ (a &&& c) ^^^ (b &&& c)

def sha256BigSigma0 (x : Nat) : Nat := rotr32 2 x ^^^ rotr32 13 x ^^^ rotr32 22 x

def sha256BigSigma1 (x : Nat) : Nat := rotr32 6 x ^^^ rotr32 11 x ^^^ rotr32 25 x

def sha256SmallSigma0 (x : Nat) : Nat := rotr32 7 x ^^^ rotr32 18 x ^^^ (x >>> 3)

def sha256SmallSigma1 (x : Nat) : Nat := rotr32 17 x ^^^ rotr32 19 x ^^^ (x >>> 10)

/-- The SHA-256 round constants. -/
def sha256K : List Nat :=
  [1116352408, 1899447441, 3049323471, 3921009573, 961987163, 1508970993,
   2453635748, 2870763221, 3624381080, 310598401, 607225278, 1426881987,
   1925078388, 2162078206, 2614888103, 3248222580, 3835390401, 4022224774,
   264347078, 604807628, 770255983, 1249150122, 1555081692, 1996064986,
   2554220882, 2821834349, 2952996808, 3210313671, 3336571891, 3584528711,
   113926993, 338241895, 666307205, 773529912, 1294757372, 1396182291,
   1695183700, 1986661051, 2177026350, 2456956037, 2730485921, 2820302411,
   3259730800, 3345764771, 3516065817, 3600352804, 4094571909, 275423344,
   430227734, 506948616, 659060556, 883997877, 958139571, 1322822218,
   1537002063, 1747873779, 1955562222, 2024104815, 2227730452, 2361852424,
   2428436474, 2756734187, 3204031479, 3329325298]

/-- The SHA-256 initial hash value. -/
def sha256H0 : List Nat :=
  [1779033703, 3144134277, 1013904242, 2773480762, 1359893119, 2600822924,
   528734635, 1541459225]

/-- Extend sixteen message words to the 64-word message schedule. -/
def sha256Schedule (ws : List Nat) : List Nat :=
  (List.range 48).foldl
    (fun acc _ =>
      let n := acc.length
      acc ++ [w32 (sha256SmallSigma1 (acc.getD (n - 2) 0) + acc.getD (n - 7) 0 +
        sha256SmallSigma0 (acc.getD (n - 15) 0) + acc.getD (n - 16) 0)])
    ws

/-- One SHA-256 compression round over an eight-word state. -/
def sha256Round (st : List Nat) (wk : Nat × Nat) : List Nat :=
  let a := st.getD 0 0
  let b := st.getD 1 0
  let c := st.getD 2 0
  let d := st.getD 3 0
  let e := st.getD 4 0
  let f := st.getD 5 0
  let g := st.getD 6 0
  let h := st.getD 7 0
  let t1 := w32 (h + sha256BigSigma1 e + sha256Ch e f g + wk.2 + wk.1)
  let t2 := w32 (sha256BigSigma0 a + sha256Maj a b c)
  [w32 (t1 + t2), a, b, c, w32 (d + t1), e, f, g]

/-- Compress one 16-word chunk into the running hash value. -/
def sha256Compress (hs ws : List Nat) : List Nat :=
  let final := ((sha256Schedule ws).zip sha256K).foldl sha256Round hs
  List.zipWith (fun x y => w32 (x + y)) hs final

/-- Big-endian eight-byte encoding of the message bit length. -/
def bigEndian8 (n : Nat) : List Nat :=
  [(n >>> 56) % 256, (n >>> 48) % 256, (n >>> 40) % 256, (n >>> 32) % 256,
   (n >>> 24) % 256, (n >>> 16) % 256, (n >>> 8) % 256, n % 256]

/-- SHA-256 padding: append `0x80`, zero bytes up to 56 mod 64, then the
bit length. -/
def sha256Pad (msg : List Nat) : List Nat :=
  let z := (56 + 64 - ((msg.length + 1) % 64)) % 64
  msg ++ [0x80] ++ List.replicate z 0 ++ bigEndian8 (8 * msg.length)

/-- Big-endian 32-bit words of a byte list. -/
def bytesToWords : List Nat → List Nat
  | b0 :: b1 :: b2 :: b3 :: rest =>
    (b0 * 16777216 + b1 * 65536 + b2 * 256 + b3) :: bytesToWords rest
  | _ => []

/-- Fold all 16-word chunks into the hash state. -/
def sha256Process (hs : List Nat) : List Nat → List Nat
  | [] => hs
  | w :: ws => sha256Process (sha256Compress hs ((w :: ws).take 16)) ((w :: ws).drop 16)
termination_by ws => ws.length
decreasing_by
  simp only [List.length_drop, List.length_cons]
  omega

/-- UTF-8 bytes of one character. -/
def utf8Bytes (c : Char) : List Nat :=
  let n := c.toNat
  if n < 128 then [n]
  else if n < 2048 then [192 + n / 64, 128 + n % 64]
  else if n < 65536 then [224 + n / 4096, 128 + (n / 64) % 64, 128 + n % 64]
  else [240 + n / 262144, 128 + (n / 4096) % 64, 128 + (n / 64) % 64, 128 + n % 64]

/-- UTF-8 bytes of a string (`str.encode()`). -/
def strUtf8 (s : String) : List Nat := (s.data.map utf8Bytes).flatten

/-- Lower-case hexadecimal digit. -/
def hexDigitChar (d : Nat) : Char :=
  if d < 10 then Char.ofNat (48 + d) else Char.ofNat (87 + d)

/-- Lower-case hexadecimal rendering of a 32-bit word. -/
def word32Hex (n : Nat) : List Char :=
  [hexDigitChar ((n >>> 28) % 16), hexDigitChar ((n >>> 24) % 16),
   hexDigitChar ((n >>> 20) % 16), hexDigitChar ((n >>> 16) % 16),
   hexDigitChar ((n >>> 12) % 16), hexDigitChar ((n >>> 8) % 16),
   hexDigitChar ((n >>> 4) % 16), hexDigitChar (n % 16)]

/-- `hashlib.sha256(s.encode()).hexdigest()`. -/
def sha256Hex (s : String) : String :=
  String.mk (((sha256Process sha256H0 (bytesToWords (sha256Pad (strUtf8 s)))).map
    word32Hex).flatten)

/-- A `KubernetesToleration` property instance; each field is the text the
f-string at line 1181 renders for it. -/
structure KubernetesToleration where
  key : String
  operator : String
  value : String
  effect : String

/-- The content string `f"{key}::{operator}::{value}::{effect}"` hashed at
lines 1180-1182. -/
def tolerationContent (t : KubernetesToleration) : String :=
  t.key ++ "::" ++ t.operator ++ "::" ++ t.value ++ "::" ++ t.effect

/-- `add_kubernetes_toleration` (lines 1176-1188), acting on the
`execution_object["kubernetes_tolerations"]` mapping (the absent key is the
empty mapping): store the instance under the SHA-256 hash of its
(key, operator, value, effect) content. -/
def add_kubernetes_toleration (inst : KubernetesToleration)
    (kubernetes_tolerations : List (String × KubernetesToleration)) :
    List (String × KubernetesToleration) :=
  alSet kubernetes_tolerations (sha256Hex (tolerationContent inst)) inst

theorem alSet_alSet {α : Type} (m : List (String × α)) (k : String) (v w : α) :
    alSet (alSet m k v) k w = alSet m k w := by
  induction m with
  | nil => simp [alSet]
  | cons e rest ih =>
    by_cases hk : e.1 = k
    · simp [alSet, hk]
    · simp [alSet, hk, ih]

/-- C8: toleration application is content-keyed and idempotent — two
instances with identical (key, operator, value, effect) tuples applied to a
descriptor without prior tolerations produce exactly one entry, and
re-applying an instance leaves the mapping unchanged. -/
theorem c8_toleration_dedup_idempotent (t1 t2 : KubernetesToleration)
    (m : List (String × KubernetesToleration))
    (hk : t1.key = t2.key) (hop : t1.operator = t2.operator)
    (hv : t1.value = t2.value) (he : t1.effect = t2.effect) :
    (add_kubernetes_toleration t2 (add_kubernetes_toleration t1 [])).length = 1 ∧
    add_kubernetes_toleration t2 (add_kubernetes_toleration t2 m) =
      add_kubernetes_toleration t2 m := by
  have hcontent : tolerationContent t1 = tolerationContent t2 := by
    unfold tolerationContent
    rw [hk, hop, hv, he]
  have hhash : sha256Hex (tolerationContent t1) = sha256Hex (tolerationContent t2) :=
    congrArg sha256Hex hcontent
  constructor
  · show (alSet (alSet [] (sha256Hex (tolerationContent t1)) t1)
      (sha256Hex (tolerationContent t2)) t2).length = 1
    rw [← hhash]
    simp [alSet]
  · exact alSet_alSet m (sha256Hex (tolerationContent t2)) t2 t2

/-- Witness for C8 at a concrete toleration pair. -/
theorem c8_toleration_dedup_idempotent_witness :
    (add_kubernetes_toleration ⟨"toleration-key", "Exists", "None", "NoExecute"⟩
      (add_kubernetes_toleration ⟨"toleration-key", "Exists", "None", "NoExecute"⟩
        [])).length = 1 ∧
    add_kubernetes_toleration ⟨"toleration-key", "Exists", "None", "NoExecute"⟩
      (add_kubernetes_toleration ⟨"toleration-key", "Exists", "None", "NoExecute"⟩
        [("h", ⟨"k2", "Equals", "42", ""⟩)]) =
    add_kubernetes_toleration ⟨"toleration-key", "Exists", "None", "NoExecute"⟩
      [("h", ⟨"k2", "Equals", "42", ""⟩)] :=
  c8_toleration_dedup_idempotent
    ⟨"toleration-key", "Exists", "None", "NoExecute"⟩
    ⟨"toleration-key", "Exists", "None", "NoExecute"⟩
    [("h", ⟨"k2", "Equals", "42", ""⟩)] rfl rfl rfl rfl

/- ## Section 7: submission response (`process`, lines 409-424, and
  `KfpPipelineProcessorResponse`, lines 1205-1216) -/

/-- Kind of a pipeline node: implemented by a generic component (script or
notebook) or by a custom component. -/
inductive OperationKind where
  | generic
  | custom
deriving DecidableEq

/-- Modelled from the spec: `Pipeline.contains_generic_operations()` (defined
in `elyra/pipeline/pipeline.py`, which is not under `src/`) reports whether
the pipeline includes at least one generic node. -/
def contains_generic_operations (operations : List OperationKind) : Bool :=
  operations.any (fun op => op == OperationKind.generic)

/-- Modelled from the spec: `join_paths` from the object-storage utility
module `elyra/util/cos` (not under `src/`), joining the pipeline-level
object-storage path prefix — absent or empty prefixes are ignored — with the
pipeline instance id. -/
def join_paths (cosObjectPrefixValue : Option String)
    (pipeline_instance_id : String) : String :=
  match cosObjectPrefixValue with
  | none => pipeline_instance_id
  | some p => if p = "" then pipeline_instance_id else p ++ "/" ++ pipeline_instance_id

/-- `KfpPipelineProcessorResponse` (lines 1205-1216): run id, run URL, and the
optional object-storage coordinates. -/
structure KfpPipelineProcessorResponse where
  run_id : String
  run_url : String
  object_storage_url : Option String
  object_storage_path : Option String
deriving DecidableEq

/-- The response constructed at the end of `process` (lines 409-424): the
object-storage fields are populated only when the pipeline contains generic
operations; the run URL points at the public API endpoint's run-details
page. -/
def processResponse (operations : List OperationKind)
    (cos_public_endpoint cos_bucket : String) (cosObjectPrefixValue : Option String)
    (pipeline_instance_id run_id public_api_endpoint : String) :
    KfpPipelineProcessorResponse :=
  { run_id := run_id
    run_url := public_api_endpoint ++ "/#/runs/details/" ++ run_id
    object_storage_url :=
      if contains_generic_operations operations then some cos_public_endpoint else none
    object_storage_path :=
      if contains_generic_operations operations then
        some ("/" ++ cos_bucket ++ "/" ++
          join_paths cosObjectPrefixValue pipeline_instance_id)
      else none }

/-- C9: the submission response carries the run id and the run URL, and its
object-storage URL/path fields are populated exactly when the pipeline
contains at least one generic node — both are `none` otherwise. -/
theorem c9_process_response_fields (operations : List OperationKind)
    (cos_public_endpoint cos_bucket : String) (cosObjectPrefixValue : Option String)
    (pipeline_instance_id run_id public_api_endpoint : String) :
    (processResponse operations cos_public_endpoint cos_bucket cosObjectPrefixValue
      pipeline_instance_id run_id public_api_endpoint).run_id = run_id ∧
    (processResponse operations cos_public_endpoint cos_bucket cosObjectPrefixValue
      pipeline_instance_id run_id public_api_endpoint).run_url =
      public_api_endpoint ++ "/#/runs/details/" ++ run_id ∧
    (((processResponse operations cos_public_endpoint cos_bucket cosObjectPrefixValue
        pipeline_instance_id run_id public_api_endpoint).object_storage_url ≠ none ∧
      (processResponse operations cos_public_endpoint cos_bucket cosObjectPrefixValue
        pipeline_instance_id run_id public_api_endpoint).object_storage_path ≠ none) ↔
      contains_generic_operations operations = true) ∧
    (contains_generic_operations operations = false →
      (processResponse operations cos_public_endpoint cos_bucket cosObjectPrefixValue
        pipeline_instance_id run_id public_api_endpoint).object_storage_url = none ∧
      (processResponse operations cos_public_endpoint cos_bucket cosObjectPrefixValue
        pipeline_instance_id run_id public_api_endpoint).object_storage_path = none) ∧
    (contains_generic_operations operations = true →
      (processResponse operations cos_public_endpoint cos_bucket cosObjectPrefixValue
        pipeline_instance_id run_id public_api_endpoint).object_storage_url =
        some cos_public_endpoint ∧
      (processResponse operations cos_public_endpoint cos_bucket cosObjectPrefixValue
        pipeline_instance_id run_id public_api_endpoint).object_storage_path =
        some ("/" ++ cos_bucket ++ "/" ++
          join_paths cosObjectPrefixValue pipeline_instance_id)) := by
  by_cases h : contains_generic_operations operations = true
  · simp [processResponse, h]
  · simp [processResponse, h]

/-- Witness for C9 on a one-generic-node pipeline and on a custom-only
pipeline. -/
theorem c9_process_response_fields_witness :
    ((processResponse [OperationKind.generic] "http://cos:9000" "bucket" none
      "inst" "run-0815" "http://api").object_storage_url = some "http://cos:9000" ∧
     (processResponse [OperationKind.generic] "http://cos:9000" "bucket" none
      "inst" "run-0815" "http://api").object_storage_path = some "/bucket/inst") ∧
    ((processResponse [OperationKind.custom] "http://cos:9000" "bucket" none
      "inst" "run-0815" "http://api").object_storage_url = none ∧
     (processResponse [OperationKind.custom] "http://cos:9000" "bucket" none
      "inst" "run-0815" "http://api").object_storage_path = none) :=
  ⟨(c9_process_response_fields [OperationKind.generic] "http://cos:9000" "bucket" none
      "inst" "run-0815" "http://api").2.2.2.2 (by decide),
   (c9_process_response_fields [OperationKind.custom] "http://cos:9000" "bucket" none
      "inst" "run-0815" "http://api").2.2.2.1 (by decide)⟩

/- ## Section 8: parameter coercion
  (`_process_list_value` / `_process_dictionary_value`)

The two coercion helpers are inherited from `elyra/pipeline/processor.py`,
which is not under `src/`.  They are modelled from the spec (section 4.3:
parse the string as a restricted literal — lists, dictionaries, integers,
booleans, `None`, single-quoted strings, nesting — and fall back to the raw
string on failure, implemented as the recursive-descent parser section 9
prescribes), and pinned by their tests in
`src/elyra/tests/pipeline/kfp/test_processor_kfp.py` (lines 265-333), which
fix that the fallback returns the whitespace-stripped input.  Numbers are
modelled as integer literals, the only numeric form the tests exercise. -/

/-- A parsed Python literal value. -/
inductive PyValue where
  | str (s : String)
  | int (n : Nat)
  | bool (b : Bool)
  | none
  | list (xs : List PyValue)
  | dict (kvs : List (PyValue × PyValue))

/-- Skip blanks between tokens. -/
def skipWs (cs : List Char) : List Char :=
  cs.dropWhile (fun c => c == ' ' || c == '\t' || c == '\n' || c == '\r')

/-- ASCII letter. -/
def isAsciiLetter (c : Char) : Bool :=
  (65 ≤ c.toNat && c.toNat ≤ 90) || (97 ≤ c.toNat && c.toNat ≤ 122)

/-- Parse the remainder of a single-quoted string (the opening quote has been
consumed); no escape sequences, as in the processor's property values. -/
def parseQuoted (cs : List Char) : Option (PyValue × List Char) :=
  let content := cs.takeWhile (fun c => c != '\'')
  match cs.dropWhile (fun c => c != '\'') with
  | '\'' :: rest => some (PyValue.str (String.mk content), rest)
  | _ => Option.none

/-- Parse a run of decimal digits. -/
def parseDigits (cs : List Char) : Option (PyValue × List Char) :=
  let ds := cs.takeWhile isAsciiDigit
  if ds.isEmpty then Option.none
  else some (PyValue.int (decimalVal ds), cs.dropWhile isAsciiDigit)

/-- Parse a bare identifier: only the keywords `True`, `False` and `None` are
literals; anything else is a parse failure (no arbitrary expressions). -/
def parseKeyword (cs : List Char) : Option (PyValue × List Char) :=
  let word := String.mk (cs.takeWhile isAsciiLetter)
  let rest := cs.dropWhile isAsciiLetter
  if word = "True" then some (PyValue.bool true, rest)
  else if word = "False" then some (PyValue.bool false, rest)
  else if word = "None" then some (PyValue.none, rest)
  else Option.none

/-- Expect a colon separator. -/
def parseColon (cs : List Char) : Option (List Char) :=
  match skipWs cs with
  | ':' :: rest => some rest
  | _ => Option.none

mutual

/-- Parse one restricted literal value. -/
def parsePyValue : Nat → List Char → Option (PyValue × List Char)
  | 0, _ => Option.none
  | fuel + 1, cs =>
    match skipWs cs with
    | [] => Option.none
    | c :: rest =>
      if c == '\'' then parseQuoted rest
      else if c == '[' then parseListRest fuel rest
      else if c == '{' then parseDictRest fuel rest
      else if isAsciiDigit c then parseDigits (c :: rest)
      else parseKeyword (c :: rest)

/-- Parse the items of a list literal, directly after `[`. -/
def parseListRest : Nat → List Char → Option (PyValue × List Char)
  | 0, _ => Option.none
  | fuel + 1, cs =>
    match skipWs cs with
    | ']' :: rest => some (PyValue.list [], rest)
    | _ =>
      match parsePyValue fuel cs with
      | some (item, rest) => parseListMore fuel [item] rest
      | Option.none => Option.none

/-- Parse `, item` continuations or the closing `]`. -/
def parseListMore : Nat → List PyValue → List Char → Option (PyValue × List Char)
  | 0, _, _ => Option.none
  | fuel + 1, acc, cs =>
    match skipWs cs with
    | ']' :: rest => some (PyValue.list acc.reverse, rest)
    | ',' :: rest =>
      match parsePyValue fuel rest with
      | some (item, rest') => parseListMore fuel (item :: acc) rest'
      | Option.none => Option.none
    | _ => Option.none

/-- Parse the entries of a dictionary literal, directly after `{`. -/
def parseDictRest : Nat → List Char → Option (PyValue × List Char)
  | 0, _ => Option.none
  | fuel + 1, cs =>
    match skipWs cs with
    | '}' :: rest => some (PyValue.dict [], rest)
    | _ =>
      match parsePyValue fuel cs with
      | some (k, rest) =>
        match parseColon rest with
        | some rest' =>
          match parsePyValue fuel rest' with
          | some (v, rest'') => parseDictMore fuel [(k, v)] rest''
          | Option.none => Option.none
        | Option.none => Option.none
      | Option.none => Option.none

/-- Parse `, key: value` continuations or the closing `}`. -/
def parseDictMore : Nat → List (PyValue × PyValue) → List Char →
    Option (PyValue × List Char)
  | 0, _, _ => Option.none
  | fuel + 1, acc, cs =>
    match skipWs cs with
    | '}' :: rest => some (PyValue.dict acc.reverse, rest)
    | ',' :: rest =>
      match parsePyValue fuel rest with
      | some (k, rest') =>
        match parseColon rest' with
        | some rest'' =>
          match parsePyValue fuel rest'' with
          | some (v, rest''') => parseDictMore fuel ((k, v) :: acc) rest'''
          | Option.none => Option.none
        | Option.none => Option.none
      | Option.none => Option.none
    | _ => Option.none

end

/-- Restricted `ast.literal_eval`: parse one value and require only blanks to
remain. -/
def pyLiteralEval (s : String) : Option PyValue :=
  match parsePyValue (4 * s.data.length + 4) s.data with
  | some (v, rest) => if (skipWs rest).isEmpty then some v else Option.none
  | Option.none => Option.none

/-- Result of `_process_list_value`: either a parsed list or the (stripped)
raw string. -/
inductive ListCoercion where
  | coerced (xs : List PyValue)
  | raw (s : String)

/-- Result of `_process_dictionary_value`. -/
inductive DictCoercion where
  | coerced (kvs : List (PyValue × PyValue))
  | raw (s : String)

/-- `_process_list_value`: `None`, blank strings and the literal text
`"None"` give the empty list; a string parsing to a list literal gives the
parsed list; anything else falls back to the stripped input string. -/
def process_list_value (value : Option String) : ListCoercion :=
  match value with
  | Option.none => ListCoercion.coerced []
  | some v =>
    let stripped := String.mk (pyStrip v.data)
    if stripped = "" then ListCoercion.coerced []
    else if stripped = "None" then ListCoercion.coerced []
    else
      match pyLiteralEval stripped with
      | some (PyValue.list xs) => ListCoercion.coerced xs
      | _ => ListCoercion.raw stripped

/-- `_process_dictionary_value`: as `_process_list_value`, for dictionary
literals. -/
def process_dictionary_value (value : Option String) : DictCoercion :=
  match value with
  | Option.none => DictCoercion.coerced []
  | some v =>
    let stripped := String.mk (pyStrip v.data)
    if stripped = "" then DictCoercion.coerced []
    else if stripped = "None" then DictCoercion.coerced []
    else
      match pyLiteralEval stripped with
      | some (PyValue.dict kvs) => DictCoercion.coerced kvs
      | _ => DictCoercion.raw stripped

/-- C6 counterexample: the fallback does not return the original input
string unchanged — the coercion helpers strip leading and trailing
whitespace before parsing and return the **stripped** string on failure, as
their tests in `src/` pin down
(`_process_list_value("  elem1, elem2  ") == "elem1, elem2"`, test line 282). -/
theorem c6_coercion_counterexample :
    process_list_value (some "  elem1, elem2  ") = ListCoercion.raw "elem1, elem2" ∧
    process_dictionary_value (some "  \x7b key1: value, key2: value \x7d  ") =
      DictCoercion.raw "\x7b key1: value, key2: value \x7d" ∧
    ListCoercion.raw "elem1, elem2" ≠ ListCoercion.raw "  elem1, elem2  " := by
  refine ⟨rfl, rfl, ?_⟩
  intro h
  exact absurd (ListCoercion.raw.inj h) (by decide)

/-- C6 (amended): the coercion functions never raise (they are total, with
every failure state degrading to a returned string); empty input, `None` and
the literal text `"None"` give the empty collection of the requested kind;
well-formed restricted literals are parsed into the structured value; and
malformed input is returned as a string, **stripped of leading and trailing
whitespace** but otherwise unchanged.  The conjuncts are exactly the
behaviours fixed by `test_process_list_value_function` and
`test_process_dictionary_value_function` (test lines 265-333). -/
theorem c6_coercion_behaviour :
    process_list_value Option.none = ListCoercion.coerced [] ∧
    process_list_value (some "") = ListCoercion.coerced [] ∧
    process_list_value (some "[]") = ListCoercion.coerced [] ∧
    process_list_value (some "None") = ListCoercion.coerced [] ∧
    process_list_value (some "['elem1']") =
      ListCoercion.coerced [PyValue.str "elem1"] ∧
    process_list_value (some "['elem1', 'elem2', 'elem3']") =
      ListCoercion.coerced [PyValue.str "elem1", PyValue.str "elem2", PyValue.str "elem3"] ∧
    process_list_value (some "  ['elem1',   'elem2' , 'elem3']  ") =
      ListCoercion.coerced [PyValue.str "elem1", PyValue.str "elem2", PyValue.str "elem3"] ∧
    process_list_value (some "[1, 2]") =
      ListCoercion.coerced [PyValue.int 1, PyValue.int 2] ∧
    process_list_value (some "[True, False, True]") =
      ListCoercion.coerced [PyValue.bool true, PyValue.bool false, PyValue.bool true] ∧
    process_list_value (some "[\x7b'obj': 'val', 'obj2': 'val2'\x7d, \x7b\x7d]") =
      ListCoercion.coerced
        [PyValue.dict [(PyValue.str "obj", PyValue.str "val"),
          (PyValue.str "obj2", PyValue.str "val2")], PyValue.dict []] ∧
    process_list_value (some "[[]") = ListCoercion.raw "[[]" ∧
    process_list_value (some "[elem1, elem2]") = ListCoercion.raw "[elem1, elem2]" ∧
    process_list_value (some "elem1, elem2") = ListCoercion.raw "elem1, elem2" ∧
    process_list_value (some "'elem1', 'elem2'") = ListCoercion.raw "'elem1', 'elem2'" ∧
    process_dictionary_value Option.none = DictCoercion.coerced [] ∧
    process_dictionary_value (some "") = DictCoercion.coerced [] ∧
    process_dictionary_value (some "\x7b\x7d") = DictCoercion.coerced [] ∧
    process_dictionary_value (some "None") = DictCoercion.coerced [] ∧
    process_dictionary_value (some "\x7b'key': 'value'\x7d") =
      DictCoercion.coerced [(PyValue.str "key", PyValue.str "value")] ∧
    process_dictionary_value (some "\x7b'key1': 'value', 'key2': 'value'\x7d") =
      DictCoercion.coerced [(PyValue.str "key1", PyValue.str "value"),
        (PyValue.str "key2", PyValue.str "value")] ∧
    process_dictionary_value (some "  \x7b  'key1': 'value'  , 'key2'  : 'value'\x7d  ") =
      DictCoercion.coerced [(PyValue.str "key1", PyValue.str "value"),
        (PyValue.str "key2", PyValue.str "value")] ∧
    process_dictionary_value (some "\x7b'key1': [1, 2, 3], 'key2': ['elem1', 'elem2']\x7d") =
      DictCoercion.coerced
        [(PyValue.str "key1",
          PyValue.list [PyValue.int 1, PyValue.int 2, PyValue.int 3]),
         (PyValue.str "key2",
          PyValue.list [PyValue.str "elem1", PyValue.str "elem2"])] ∧
    process_dictionary_value
        (some "\x7b'key1': 2, 'key2': 'value', 'key3': True, 'key4': None, 'key5': [1, 2, 3]\x7d") =
      DictCoercion.coerced
        [(PyValue.str "key1", PyValue.int 2),
         (PyValue.str "key2", PyValue.str "value"),
         (PyValue.str "key3", PyValue.bool true),
         (PyValue.str "key4", PyValue.none),
         (PyValue.str "key5",
          PyValue.list [PyValue.int 1, PyValue.int 2, PyValue.int 3])] ∧
    process_dictionary_value
        (some "\x7b'key1': \x7b'key2': 2, 'key3': 3, 'key4': 4\x7d, 'key5': \x7b\x7d\x7d") =
      DictCoercion.coerced
        [(PyValue.str "key1",
          PyValue.dict [(PyValue.str "key2", PyValue.int 2),
            (PyValue.str "key3", PyValue.int 3), (PyValue.str "key4", PyValue.int 4)]),
         (PyValue.str "key5", PyValue.dict [])] ∧
    process_dictionary_value (some "\x7b\x7b\x7d") = DictCoercion.raw "\x7b\x7b\x7d" ∧
    process_dictionary_value (some "\x7bkey1: value, key2: value\x7d") =
      DictCoercion.raw "\x7bkey1: value, key2: value\x7d" ∧
    process_dictionary_value (some "key1: value, key2: value") =
      DictCoercion.raw "key1: value, key2: value" ∧
    process_dictionary_value (some "\x7b'key1': true\x7d") = DictCoercion.raw "\x7b'key1': true\x7d" ∧
    process_dictionary_value (some "\x7b'key': null\x7d") = DictCoercion.raw "\x7b'key': null\x7d" ∧
    process_dictionary_value
        (some "\x7b'key1': [elem1, elem2, elem3], 'key2': ['elem1', 'elem2']\x7d") =
      DictCoercion.raw "\x7b'key1': [elem1, elem2, elem3], 'key2': ['elem1', 'elem2']\x7d" ∧
    process_dictionary_value (some "\x7b'key1': \x7bkey2: 2\x7d, 'key3': ['elem1', 'elem2']\x7d") =
      DictCoercion.raw "\x7b'key1': \x7bkey2: 2\x7d, 'key3': ['elem1', 'elem2']\x7d" := by
  exact ⟨rfl, rfl, rfl, rfl, rfl, rfl, rfl, rfl, rfl, rfl, rfl, rfl, rfl, rfl, rfl,
    rfl, rfl, rfl, rfl, rfl, rfl, rfl, rfl, rfl, rfl, rfl, rfl, rfl, rfl, rfl, rfl⟩

/- ## Section 9: idempotence of `_sanitize_param_name` -/

theorem char_eq_of_toNat_eq {c d : Char} (h : c.toNat = d.toNat) : c = d :=
  Char.ext (UInt32.ext h)

theorem char_toLower_fix (c : Char) (hd : c.toNat < 65 ∨ c.toNat > 90) :
    c.toLower = c := by
  unfold Char.toLower
  rw [if_neg (by omega)]

theorem char_toLower_upper (c : Char) (hd : 65 ≤ c.toNat ∧ c.toNat ≤ 90) :
    (c.toLower).toNat = c.toNat + 32 := by
  unfold Char.toLower
  rw [if_pos (by omega)]
  exact toNat_charOfNat (Or.inl (by omega))

theorem char_toLower_not_upper (c : Char) :
    ¬(65 ≤ (c.toLower).toNat ∧ (c.toLower).toNat ≤ 90) := by
  by_cases hd : 65 ≤ c.toNat ∧ c.toNat ≤ 90
  · rw [char_toLower_upper c hd]
    omega
  · rw [char_toLower_fix c (by omega)]
    omega

/-- Characters that can appear in a sanitized parameter name: underscore,
ASCII digits, ASCII lowercase letters. -/
def sanitizedChar (c : Char) : Bool :=
  c.toNat == 95 || (48 ≤ c.toNat && c.toNat ≤ 57) || (97 ≤ c.toNat && c.toNat ≤ 122)

/-- No two adjacent occurrences of the character `d`. -/
def NoAdj (d : Char) (l : List Char) : Prop :=
  List.Chain' (fun a b => ¬(a = d ∧ b = d)) l

/-- Head constraint of a sanitized name: no leading underscore or digit. -/
def headOk : List Char → Prop
  | [] => True
  | c :: _ => c ≠ '_' ∧ isAsciiDigit c = false

/-- Shape of every `_sanitize_param_name` output: only underscores, digits
and lowercase letters; no two adjacent underscores; no leading underscore or
digit; no trailing underscore. -/
def SanitizedOut (l : List Char) : Prop :=
  (∀ c ∈ l, sanitizedChar c = true) ∧ NoAdj '_' l ∧ headOk l ∧
  l.getLast? ≠ some '_'

theorem chain'_imp_mem {R S : Char → Char → Prop} :
    ∀ l : List Char, (∀ a ∈ l, ∀ b ∈ l, R a b → S a b) →
      List.Chain' R l → List.Chain' S l := by
  intro l
  induction l with
  | nil => intro _ _; exact List.chain'_nil
  | cons a rest ih =>
    intro himp hch
    rw [List.chain'_cons'] at hch ⊢
    obtain ⟨hhead, htail⟩ := hch
    refine ⟨?_, ih (fun x hx y hy => himp x (List.mem_cons_of_mem a hx)
      y (List.mem_cons_of_mem a hy)) htail⟩
    intro b hb
    have hbmem : b ∈ a :: rest := by
      cases rest with
      | nil => simp at hb
      | cons r rs =>
        simp at hb
        subst hb
        exact List.mem_cons_of_mem a (List.mem_cons_self r rs)
    exact himp a (List.mem_cons_self a rest) b hbmem (hhead b hb)

theorem mem_collapseRunsAux {d : Char} :
    ∀ (flag : Bool) (l : List Char) (c : Char),
      c ∈ collapseRunsAux d flag l → c ∈ l := by
  intro flag l
  induction l generalizing flag with
  | nil => intro c hc; cases flag <;> cases hc
  | cons a rest ih =>
    intro c hc
    cases flag with
    | true =>
      by_cases ha : a = d
      · rw [collapseRunsAux, if_pos ha] at hc
        exact List.mem_cons_of_mem a (ih true c hc)
      · rw [collapseRunsAux, if_neg ha] at hc
        rcases List.mem_cons.1 hc with h | h
        · exact h ▸ List.mem_cons_self a rest
        · exact List.mem_cons_of_mem a (ih false c h)
    | false =>
      by_cases ha : a = d
      · rw [collapseRunsAux, if_pos ha] at hc
        rcases List.mem_cons.1 hc with h | h
        · exact h ▸ List.mem_cons_self a rest
        · exact List.mem_cons_of_mem a (ih true c h)
      · rw [collapseRunsAux, if_neg ha] at hc
        rcases List.mem_cons.1 hc with h | h
        · exact h ▸ List.mem_cons_self a rest
        · exact List.mem_cons_of_mem a (ih false c h)

theorem collapseRunsAux_head_ne (d : Char) :
    ∀ (l : List Char) (c : Char),
      (collapseRunsAux d true l).head? = some c → c ≠ d := by
  intro l
  induction l with
  | nil => intro c hc; cases hc
  | cons a rest ih =>
    intro c hc
    by_cases ha : a = d
    · rw [collapseRunsAux, if_pos ha] at hc
      exact ih c hc
    · rw [collapseRunsAux, if_neg ha] at hc
      cases hc
      exact ha

theorem collapseRunsAux_noAdj (d : Char) :
    ∀ (l : List Char) (flag : Bool), NoAdj d (collapseRunsAux d flag l) := by
  intro l
  induction l with
  | nil => intro flag; cases flag <;> exact List.chain'_nil
  | cons a rest ih =>
    intro flag
    cases flag with
    | true =>
      by_cases ha : a = d
      · rw [collapseRunsAux, if_pos ha]
        exact ih true
      · rw [collapseRunsAux, if_neg ha]
        rw [NoAdj, List.chain'_cons']
        exact ⟨fun b _ hb => ha hb.1, ih false⟩
    | false =>
      by_cases ha : a = d
      · rw [collapseRunsAux, if_pos ha]
        rw [NoAdj, List.chain'_cons']
        refine ⟨fun b hb hab => ?_, ih true⟩
        exact collapseRunsAux_head_ne d rest b hb hab.2
      · rw [collapseRunsAux, if_neg ha]
        rw [NoAdj, List.chain'_cons']
        exact ⟨fun b _ hb => ha hb.1, ih false⟩

theorem collapseRunsAux_id (d : Char) :
    ∀ (l : List Char) (flag : Bool), NoAdj d l →
      (flag = true → ∀ c, l.head? = some c → c ≠ d) →
      collapseRunsAux d flag l = l := by
  intro l
  induction l with
  | nil => intro flag _ _; cases flag <;> rfl
  | cons a rest ih =>
    intro flag hadj hflag
    have htail : NoAdj d rest := List.Chain'.tail hadj
    cases flag with
    | true =>
      have ha : a ≠ d := hflag rfl a rfl
      rw [collapseRunsAux, if_neg ha]
      rw [ih false htail (fun h => by cases h)]
    | false =>
      by_cases ha : a = d
      · rw [collapseRunsAux, if_pos ha]
        rw [NoAdj, List.chain'_cons'] at hadj
        refine congrArg (a :: ·) (ih true htail (fun _ c hc hcd => ?_))
        exact hadj.1 c hc ⟨ha, hcd⟩
      · rw [collapseRunsAux, if_neg ha]
        rw [ih false htail (fun h => by cases h)]

theorem dropWhile_head_false (p : Char → Bool) :
    ∀ (l : List Char) (c : Char), (l.dropWhile p).head? = some c → p c = false := by
  intro l
  induction l with
  | nil => intro c hc; cases hc
  | cons a rest ih =>
    intro c hc
    by_cases hpa : p a = true
    · rw [List.dropWhile_cons, if_pos hpa] at hc
      exact ih c hc
    · rw [List.dropWhile_cons, if_neg hpa] at hc
      cases hc
      simpa using hpa

theorem dropWhile_id_of_head (p : Char → Bool) (l : List Char)
    (h : ∀ c, l.head? = some c → p c = false) : l.dropWhile p = l := by
  cases l with
  | nil => rfl
  | cons a rest =>
    rw [List.dropWhile_cons, if_neg (by simp [h a rfl])]

theorem pyStrip_id (m : List Char)
    (hh : ∀ c, m.head? = some c → isPyWhitespace c = false)
    (hl : ∀ c, m.getLast? = some c → isPyWhitespace c = false) : pyStrip m = m := by
  unfold pyStrip dropWhileEndP
  rw [dropWhile_id_of_head _ m hh]
  rw [dropWhile_id_of_head _ m.reverse (fun c hc => hl c (by rwa [List.head?_reverse] at hc))]
  exact List.reverse_reverse m

theorem suffix_reverse_isPrefix {l₁ l₂ : List Char} (h : l₁ <:+ l₂) :
    l₁.reverse <+: l₂.reverse := by
  obtain ⟨t, rfl⟩ := h
  exact ⟨t.reverse, by rw [List.reverse_append]⟩

theorem dropWhileEndP_isPrefix (p : Char → Bool) (m : List Char) :
    dropWhileEndP p m <+: m := by
  unfold dropWhileEndP
  have h := suffix_reverse_isPrefix (List.dropWhile_suffix (l := m.reverse) p)
  rwa [List.reverse_reverse] at h

theorem head?_of_isPrefix {l₁ l₂ : List Char} {c : Char} (h : l₁ <+: l₂)
    (hc : l₁.head? = some c) : l₂.head? = some c := by
  obtain ⟨t, rfl⟩ := h
  cases l₁ with
  | nil => cases hc
  | cons a rest => cases hc; rfl

theorem mem_of_mem_dropWhileEndP {p : Char → Bool} {m : List Char} {c : Char}
    (h : c ∈ dropWhileEndP p m) : c ∈ m :=
  (dropWhileEndP_isPrefix p m).sublist.subset h

theorem mem_of_mem_pyStrip {m : List Char} {c : Char} (h : c ∈ pyStrip m) : c ∈ m := by
  unfold pyStrip at h
  exact (List.dropWhile_suffix isPyWhitespace).sublist.subset (mem_of_mem_dropWhileEndP h)

theorem noAdj_reverse {d : Char} {l : List Char} (h : NoAdj d l) : NoAdj d l.reverse := by
  rw [NoAdj, List.chain'_reverse]
  exact List.Chain'.imp (fun a b hab hc => hab ⟨hc.2, hc.1⟩) h

theorem noAdj_dropWhile {d : Char} {p : Char → Bool} {l : List Char} (h : NoAdj d l) :
    NoAdj d (l.dropWhile p) :=
  List.Chain'.suffix h (List.dropWhile_suffix p)

theorem noAdj_pyStrip {d : Char} {m : List Char} (h : NoAdj d m) : NoAdj d (pyStrip m) := by
  unfold pyStrip dropWhileEndP
  exact noAdj_reverse (noAdj_dropWhile (noAdj_reverse (noAdj_dropWhile h)))

theorem pyStrip_head (m : List Char) (c : Char) (hc : (pyStrip m).head? = some c) :
    isPyWhitespace c = false := by
  unfold pyStrip at hc
  exact dropWhile_head_false isPyWhitespace m c
    (head?_of_isPrefix (dropWhileEndP_isPrefix _ _) hc)

theorem pyStrip_getLast (m : List Char) (c : Char) (hc : (pyStrip m).getLast? = some c) :
    isPyWhitespace c = false := by
  unfold pyStrip dropWhileEndP at hc
  rw [← List.head?_reverse, List.reverse_reverse] at hc
  exact dropWhile_head_false isPyWhitespace _ c hc

theorem sanitizedChar_cases {c : Char} (h : sanitizedChar c = true) :
    c.toNat = 95 ∨ (48 ≤ c.toNat ∧ c.toNat ≤ 57) ∨ (97 ≤ c.toNat ∧ c.toNat ≤ 122) := by
  simp [sanitizedChar] at h
  omega

theorem char_ne_of_toNat_ne {c d : Char} (h : c.toNat ≠ d.toNat) : c ≠ d :=
  fun hEq => h (congrArg Char.toNat hEq)

theorem sanitizeParamChars_fixed (l : List Char) (h : SanitizedOut l) :
    sanitizeParamChars l = l := by
  obtain ⟨hchars, hadj, hhead, hlast⟩ := h
  have hsan : ∀ c ∈ l, c.toNat = 95 ∨ (48 ≤ c.toNat ∧ c.toNat ≤ 57) ∨
      (97 ≤ c.toNat ∧ c.toNat ≤ 122) := fun c hc => sanitizedChar_cases (hchars c hc)
  have h1 : l.map Char.toLower = l := by
    conv_rhs => rw [← List.map_id l]
    exact List.map_congr_left (fun c hc => char_toLower_fix c (by have := hsan c hc; omega))
  have h2 : l.map (fun c => if paramSeparatorChar c then ' ' else c) =
      l.map (fun c => if c = '_' then ' ' else c) := by
    apply List.map_congr_left
    intro c hc
    by_cases h95 : c = '_'
    · subst h95
      decide
    · have h95' : c.toNat ≠ 95 := fun hEq => h95 (char_eq_of_toNat_eq (by rw [hEq]; rfl))
      have hw : paramSeparatorChar c = false := by
        have := hsan c hc
        simp [paramSeparatorChar, isWordChar]
        omega
      rw [if_neg (by simp [hw]), if_neg h95]
  have hmemf : ∀ c ∈ l.map (fun c => if c = '_' then ' ' else c),
      c = ' ' ∨ (sanitizedChar c = true ∧ c.toNat ≠ 95 ∧ c.toNat ≠ 32) := by
    intro c hc
    obtain ⟨a, ha, rfl⟩ := List.mem_map.1 hc
    by_cases h95 : a = '_'
    · subst h95
      exact Or.inl (by rw [if_pos rfl])
    · have h95' : a.toNat ≠ 95 := fun hEq => h95 (char_eq_of_toNat_eq (by rw [hEq]; rfl))
      rw [if_neg h95]
      exact Or.inr ⟨hchars a ha, h95', by have := hsan a ha; omega⟩
  have hval : ∀ a ∈ l, a ≠ '_' → (if a = '_' then ' ' else a) ≠ ' ' := by
    intro a ha h95
    rw [if_neg h95]
    have := hsan a ha
    have h95' : a.toNat ≠ 95 := fun hEq => h95 (char_eq_of_toNat_eq (by rw [hEq]; rfl))
    refine char_ne_of_toNat_ne ?_
    have h32 : (' ').toNat = 32 := rfl
    omega
  have hnoadj2 : NoAdj ' ' (l.map (fun c => if c = '_' then ' ' else c)) := by
    rw [NoAdj, List.chain'_map]
    refine chain'_imp_mem l (fun a ha b hb hab hcon => hab ?_) hadj
    constructor
    · by_contra h95
      exact hval a ha h95 hcon.1
    · by_contra h95
      exact hval b hb h95 hcon.2
  have h3 : collapseRuns ' ' (l.map (fun c => if c = '_' then ' ' else c)) =
      l.map (fun c => if c = '_' then ' ' else c) :=
    collapseRunsAux_id ' ' _ false hnoadj2 (fun hcon => by cases hcon)
  have hhd : ∀ c, (l.map (fun c => if c = '_' then ' ' else c)).head? = some c →
      isPyWhitespace c = false := by
    intro c hc
    cases l with
    | nil => cases hc
    | cons a rest =>
      obtain ⟨ha95, _⟩ := hhead
      rw [List.map_cons] at hc
      cases hc
      rw [if_neg ha95]
      have := hsan a (List.mem_cons_self a rest)
      simp [isPyWhitespace]
      omega
  have hld : ∀ c, (l.map (fun c => if c = '_' then ' ' else c)).getLast? = some c →
      isPyWhitespace c = false := by
    intro c hc
    rw [← List.head?_reverse, ← List.map_reverse] at hc
    rcases hrev : l.reverse with _ | ⟨a, rest⟩
    · rw [hrev] at hc
      cases hc
    · rw [hrev, List.map_cons] at hc
      cases hc
      have halast : l.getLast? = some a := by
        rw [← List.head?_reverse, hrev]
        rfl
      have ha95 : a ≠ '_' := fun hEq => hlast (by rw [halast, hEq])
      have hamem : a ∈ l := by
        rw [← List.mem_reverse, hrev]
        exact List.mem_cons_self a rest
      rw [if_neg ha95]
      have := hsan a hamem
      simp [isPyWhitespace]
      omega
  have h4 : pyStrip (l.map (fun c => if c = '_' then ' ' else c)) =
      l.map (fun c => if c = '_' then ' ' else c) :=
    pyStrip_id _ hhd hld
  have h5 : startsWithDigit (l.map (fun c => if c = '_' then ' ' else c)) = false := by
    cases l with
    | nil => rfl
    | cons a rest =>
      obtain ⟨ha95, hadigit⟩ := hhead
      rw [List.map_cons, startsWithDigit, if_neg ha95]
      exact hadigit
  have h6 : (l.map (fun c => if c = '_' then ' ' else c)).map
      (fun c => if c = ' ' then '_' else c) = l := by
    rw [List.map_map]
    conv_rhs => rw [← List.map_id l]
    apply List.map_congr_left
    intro c hc
    by_cases h95 : c = '_'
    · subst h95
      decide
    · have h95' : c.toNat ≠ 95 := fun hEq => h95 (char_eq_of_toNat_eq (by rw [hEq]; rfl))
      have hne32 : c ≠ ' ' := by
        refine char_ne_of_toNat_ne ?_
        have := hsan c hc
        have h32 : (' ').toNat = 32 := rfl
        omega
      simp only [Function.comp, if_neg h95, if_neg hne32, id]
  simp only [sanitizeParamChars]
  rw [h1, h2, h3, h4, h5]
  simp only [Bool.false_eq_true, if_false]
  exact h6

theorem stage2_mem (l : List Char) :
    ∀ c ∈ (l.map Char.toLower).map (fun c => if paramSeparatorChar c then ' ' else c),
      c = ' ' ∨ ((48 ≤ c.toNat ∧ c.toNat ≤ 57) ∨ (97 ≤ c.toNat ∧ c.toNat ≤ 122)) := by
  intro c hc
  obtain ⟨a, ha, rfl⟩ := List.mem_map.1 hc
  obtain ⟨b, _, rfl⟩ := List.mem_map.1 ha
  by_cases hsep : paramSeparatorChar b.toLower = true
  · rw [if_pos hsep]
    exact Or.inl rfl
  · rw [if_neg hsep]
    right
    have hnot := char_toLower_not_upper b
    simp [paramSeparatorChar, isWordChar] at hsep
    omega

theorem sanitizedOut_of_clean (L3 : List Char)
    (hmem : ∀ c ∈ L3, c = ' ' ∨ ((48 ≤ c.toNat ∧ c.toNat ≤ 57) ∨
      (97 ≤ c.toNat ∧ c.toNat ≤ 122)))
    (hadj : NoAdj ' ' L3)
    (hhd : ∀ c, L3.head? = some c → c ≠ ' ')
    (hls : L3.getLast? ≠ some ' ') :
    SanitizedOut ((if startsWithDigit L3 then 'n' :: L3 else L3).map
      (fun c => if c = ' ' then '_' else c)) := by
  have hrange : ∀ c : Char, (48 ≤ c.toNat ∧ c.toNat ≤ 57) ∨
      (97 ≤ c.toNat ∧ c.toNat ≤ 122) →
      c ≠ ' ' ∧ c ≠ '_' ∧ sanitizedChar c = true := by
    intro c hcr
    have h32 : (' ').toNat = 32 := rfl
    have h95 : ('_').toNat = 95 := rfl
    refine ⟨char_ne_of_toNat_ne (by omega), char_ne_of_toNat_ne (by omega), ?_⟩
    simp [sanitizedChar]
    omega
  have hmemLead : ∀ c ∈ (if startsWithDigit L3 then 'n' :: L3 else L3),
      c = ' ' ∨ ((48 ≤ c.toNat ∧ c.toNat ≤ 57) ∨ (97 ≤ c.toNat ∧ c.toNat ≤ 122)) := by
    intro c hc
    by_cases hsd : startsWithDigit L3 = true
    · rw [if_pos hsd] at hc
      rcases List.mem_cons.1 hc with h | h
      · subst h
        exact Or.inr (Or.inr (by decide))
      · exact hmem c h
    · rw [if_neg hsd] at hc
      exact hmem c hc
  have hfix : ∀ c, c ∈ (if startsWithDigit L3 then 'n' :: L3 else L3) →
      (if c = ' ' then '_' else c) = '_' → c = ' ' := by
    intro c hc hu
    by_cases hsp : c = ' '
    · exact hsp
    · rw [if_neg hsp] at hu
      rcases hmemLead c hc with h | h
      · exact h
      · exact absurd hu (hrange c h).2.1
  have hadjLead : NoAdj ' ' (if startsWithDigit L3 then 'n' :: L3 else L3) := by
    by_cases hsd : startsWithDigit L3 = true
    · rw [if_pos hsd, NoAdj, List.chain'_cons']
      refine ⟨fun b _ hb => ?_, hadj⟩
      exact absurd hb.1 (by decide)
    · rw [if_neg hsd]
      exact hadj
  refine ⟨?_, ?_, ?_, ?_⟩
  · intro c hc
    obtain ⟨a, ha, rfl⟩ := List.mem_map.1 hc
    by_cases hsp : a = ' '
    · subst hsp
      rw [if_pos rfl]
      decide
    · rw [if_neg hsp]
      rcases hmemLead a ha with h | h
      · exact absurd h hsp
      · exact (hrange a h).2.2
  · rw [NoAdj, List.chain'_map]
    refine chain'_imp_mem _ (fun a ha b hb hab hcon => hab ?_) hadjLead
    exact ⟨hfix a ha hcon.1, hfix b hb hcon.2⟩
  · by_cases hsd : startsWithDigit L3 = true
    · rw [if_pos hsd]
      rw [List.map_cons]
      exact ⟨by decide, by decide⟩
    · rw [if_neg hsd]
      cases hL : L3 with
      | nil => exact trivial
      | cons a as =>
        rw [List.map_cons]
        have hane : a ≠ ' ' := hhd a (by rw [hL]; rfl)
        have hamem : a ∈ L3 := by rw [hL]; exact List.mem_cons_self a as
        rcases hmemLead a (by rw [if_neg hsd]; exact hamem) with h | h
        · exact absurd h hane
        · rw [if_neg hane]
          refine ⟨(hrange a h).2.1, ?_⟩
          rw [hL, startsWithDigit] at hsd
          exact Bool.not_eq_true _ ▸ Bool.of_not_eq_true hsd
  · rw [List.getLast?_map]
    have hlast : ∀ a, (if startsWithDigit L3 then 'n' :: L3 else L3).getLast? = some a →
        a ≠ ' ' ∧ a ≠ '_' := by
      intro a hg
      by_cases hsd : startsWithDigit L3 = true
      · rw [if_pos hsd] at hg
        cases hL : L3 with
        | nil =>
          rw [hL] at hg
          cases hg
          exact ⟨by decide, by decide⟩
        | cons b bs =>
          rw [hL, List.getLast?_cons_cons] at hg
          have hg' : L3.getLast? = some a := by rw [hL]; exact hg
          have hane : a ≠ ' ' := fun hEq => hls (by rw [hg', hEq])
          rcases hmem a (List.mem_of_mem_getLast? hg') with h | h
          · exact absurd h hane
          · exact ⟨hane, (hrange a h).2.1⟩
      · rw [if_neg hsd] at hg
        have hane : a ≠ ' ' := fun hEq => hls (by rw [hg, hEq])
        rcases hmem a (List.mem_of_mem_getLast? hg) with h | h
        · exact absurd h hane
        · exact ⟨hane, (hrange a h).2.1⟩
    cases hg : (if startsWithDigit L3 then 'n' :: L3 else L3).getLast? with
    | none => simp
    | some a =>
      obtain ⟨hane, hanu⟩ := hlast a hg
      simp [if_neg hane]
      exact hanu

theorem sanitizeParamChars_out (l : List Char) : SanitizedOut (sanitizeParamChars l) := by
  simp only [sanitizeParamChars]
  apply sanitizedOut_of_clean
  · intro c hc
    exact stage2_mem l c (mem_collapseRunsAux false _ c (mem_of_mem_pyStrip hc))
  · exact noAdj_pyStrip (collapseRunsAux_noAdj ' ' _ false)
  · intro c hc hsp
    have hw := pyStrip_head _ c hc
    subst hsp
    exact absurd hw (by decide)
  · intro hg
    exact absurd (pyStrip_getLast _ ' ' hg) (by decide)

/-- C10: `_sanitize_param_name` (processor_kfp.py lines 1109-1130) is
idempotent: applying it to a name it has already sanitized returns that name
unchanged, so sanitization is stable under repetition. -/
theorem c10_sanitize_param_name_idempotent (name : String) :
    sanitize_param_name (sanitize_param_name name) = sanitize_param_name name := by
  show String.mk (sanitizeParamChars (String.mk (sanitizeParamChars name.data)).data) =
    String.mk (sanitizeParamChars name.data)
  exact congrArg String.mk (sanitizeParamChars_fixed _ (sanitizeParamChars_out name.data))
